import Mathlib

/-! Imaging-calorimeter clustering: `ImagingTopoCluster` and `ClusterRecoCoG`.

A shallow embedding of two components of `JugReco/src/components`:

* `ImagingTopoCluster.cpp`: the adjacency predicate `is_neighbor`, the depth-first
  grouping routine `dfs_group`, the per-event driver `execute` with its post-grouping
  filter, and `initialize`;
* `ClusterRecoCoG.cpp`: the weighting functions, `initialize` and the centre-of-gravity
  reconstruction `reconstruct`.

Modelling conventions.
* Floating-point quantities (`double`/`float`) are exact rationals `ℚ`, and the rounding
  of an arithmetic operation is outside the model. Two things are kept: the narrowing
  `const float eta = eicd::eta(...)` of `reconstruct`, whose result is compared with a
  pseudorapidity that is not narrowed (the parameter `to_float`), and the division by a
  zero total weight, after which a value is `none` where it is not a finite number.
* `int` quantities are unbounded `Int`; signed overflow (undefined in C++) is
  outside the model.
* `std::vector` is `List`; `hits[i]` is `hits[i]?`, and an out-of-range access
  makes the computation return `none`.
* The recursion of `dfs_group` is bounded by an explicit recursion budget; an
  exhausted budget also returns `none`.  `dfs_group_spec` shows that a budget of
  at least the number of unvisited hits is never exhausted, `dfs_group_depth_mono`
  that a result does not depend on the budget, and `execute` starts every traversal
  with the budget `hits.size()`.
* Library functions that are not part of the repository (`<cmath>`,
  `eicd/vector_utils.h`, the unit constants of Gaudi) are parameters.
-/

namespace Jug.Reco

/-- The record `eic::ImagingPixel`: the ten members passed to its constructor in
`dfs_group`, with the vector members `local`, `position` and `polar` flattened. -/
structure ImagingPixel where
  clusterID : Int
  layerID : Int
  sectorID : Int
  hitID : Int
  edep : ℚ
  time : ℚ
  eta : ℚ
  local_x : ℚ
  local_y : ℚ
  local_z : ℚ
  x : ℚ
  y : ℚ
  z : ℚ
  r : ℚ
  theta : ℚ
  phi : ℚ
deriving DecidableEq, Repr

/-- The data members of `ImagingTopoCluster` read by `execute`, `is_neighbor` and
`dfs_group`: the unitless counterparts filled in by `initialize`, together with the
two integer properties that are read directly. -/
structure ImagingTopoCluster where
  /-- Property `m_neighbourLayersRange`. -/
  neighbourLayersRange : Int
  /-- Member `localDistXY[2]`, as the pair `(localDistXY[0], localDistXY[1])`. -/
  localDistXY : ℚ × ℚ
  /-- Member `layerDistEtaPhi[2]`, as the pair `(layerDistEtaPhi[0], layerDistEtaPhi[1])`. -/
  layerDistEtaPhi : ℚ × ℚ
  sectorDist : ℚ
  minClusterHitEdep : ℚ
  minClusterCenterEdep : ℚ
  minClusterEdep : ℚ
  /-- Property `m_minClusterNhits`. -/
  minClusterNhits : Int
deriving DecidableEq, Repr

/-- The two values of Gaudi's `StatusCode` used by the component. -/
inductive StatusCode where
  | SUCCESS
  | FAILURE
deriving DecidableEq, Repr

/-- The helper `pow2`: `x * x`. -/
def pow2 (x : ℚ) : ℚ := x * x

/-- The comparison `std::sqrt(s) <= d`, decided without leaving `ℚ`: for the
non-negative `s` it is applied to, the square root of `s` is at most `d` exactly when
`d` is non-negative and `s ≤ d * d` (see `sqrt_le_iff`). -/
def sqrt_le (s d : ℚ) : Bool := decide (0 ≤ d ∧ s ≤ d * d)

/-- The adjacency predicate `ImagingTopoCluster::is_neighbor`. -/
def is_neighbor (self : ImagingTopoCluster) (h1 h2 : ImagingPixel) : Bool :=
  -- different sectors, simple distance check
  if h1.sectorID ≠ h2.sectorID then
    sqrt_le (pow2 (h1.x - h2.x) + pow2 (h1.y - h2.y) + pow2 (h1.z - h2.z)) self.sectorDist
  else
    -- layer check
    let ldiff : Int := |h1.layerID - h2.layerID|
    -- same layer, check local positions
    if ldiff = 0 then
      decide (|h1.local_x - h2.local_x| ≤ self.localDistXY.1) &&
        decide (|h1.local_y - h2.local_y| ≤ self.localDistXY.2)
    else if ldiff ≤ self.neighbourLayersRange then
      decide (|h1.eta - h2.eta| ≤ self.layerDistEtaPhi.1) &&
        decide (|h1.phi - h2.phi| ≤ self.layerDistEtaPhi.2)
    else
      -- not in adjacent layers
      false

/-- The working state of the grouping: the group being filled and the `visits` flags. -/
abbrev DfsState := List ImagingPixel × List Bool

/-- The `for` loop of `dfs_group` over the indices `is`, for the freshly pushed `hit`;
`recurse` is the recursive call `dfs_group(group, i, hits, visits)`. -/
def dfs_loop (self : ImagingTopoCluster) (hits : List ImagingPixel)
    (recurse : Nat → DfsState → Option DfsState) (hit : ImagingPixel) :
    List Nat → DfsState → Option DfsState
  | [], st => some st
  | i :: is, st =>
    match hits[i]? with
    | none => none
    | some hi =>
      -- visited, or not a neighbor
      if st.2.getD i false || !is_neighbor self hit hi then
        dfs_loop self hits recurse hit is st
      else
        (recurse i st).bind (dfs_loop self hits recurse hit is)

/-- The grouping function `ImagingTopoCluster::dfs_group` (depth-first search). The
first argument bounds the recursion depth. -/
def dfs_group (self : ImagingTopoCluster) (hits : List ImagingPixel) :
    Nat → Nat → DfsState → Option DfsState
  | 0, _, _ => none
  | depth + 1, idx, (group, visits) =>
    match hits[idx]? with
    | none => none
    | some h =>
      -- not a qualified hit to participate in clustering, stop here
      if h.edep < self.minClusterHitEdep then
        some (group, visits.set idx true)
      else
        let hit : ImagingPixel :=
          { clusterID := h.clusterID, layerID := h.layerID, sectorID := h.sectorID,
            hitID := h.hitID, edep := h.edep, time := h.time, eta := h.eta,
            local_x := h.local_x, local_y := h.local_y, local_z := h.local_z,
            x := h.x, y := h.y, z := h.z, r := h.r, theta := h.theta, phi := h.phi }
        dfs_loop self hits (fun i st => dfs_group self hits depth i st) hit
          (List.range hits.length) (group ++ [hit], visits.set idx true)

/-- The state of the first loop of `execute`: the `groups` built so far and `visits`. -/
abbrev GroupsState := List (List ImagingPixel) × List Bool

/-- The first `for` loop of `execute` ("group neighboring hits") over the indices `is`. -/
def group_loop (self : ImagingTopoCluster) (hits : List ImagingPixel) :
    List Nat → GroupsState → Option GroupsState
  | [], st => some st
  | i :: is, (groups, visits) =>
    match hits[i]? with
    | none => none
    | some hi =>
      -- already in a group, or not energetic enough to form a cluster
      if visits.getD i false || hi.edep < self.minClusterCenterEdep then
        group_loop self hits is (groups, visits)
      else
        -- create a new group, and group all the neighboring hits
        (dfs_group self hits hits.length i ([], visits)).bind
          (fun st => group_loop self hits is (groups ++ [st.1], st.2))

/-- The `groups` of `execute` after its first loop, started from
`visits(hits.size(), false)` and no groups. -/
def build_groups (self : ImagingTopoCluster) (hits : List ImagingPixel) :
    Option (List (List ImagingPixel)) :=
  (group_loop self hits (List.range hits.length)
    ([], List.replicate hits.length false)).map Prod.fst

/-- The setter `hit.clusterID(clusterID)` applied to a copy of a hit. -/
def set_clusterID (clusterID : Int) (hit : ImagingPixel) : ImagingPixel :=
  { hit with clusterID := clusterID }

/-- The second `for` loop of `execute`: the post-grouping filter, appending the hits of
each kept group to `clustered_hits`. -/
def emit_loop (self : ImagingTopoCluster) (clusterID : Int) :
    List (List ImagingPixel) → List ImagingPixel → List ImagingPixel
  | [], clustered_hits => clustered_hits
  | group :: rest, clustered_hits =>
    if (group.length : Int) < self.minClusterNhits then
      emit_loop self clusterID rest clustered_hits
    else
      let edep : ℚ := group.foldl (fun acc hit => acc + hit.edep) 0
      if edep < self.minClusterEdep then
        emit_loop self clusterID rest clustered_hits
      else
        emit_loop self clusterID rest
          (group.foldl (fun out hit => out ++ [set_clusterID clusterID hit]) clustered_hits)

/-- The method `ImagingTopoCluster::execute`: the status code returned and the output
collection `clustered_hits`. -/
def execute (self : ImagingTopoCluster) (hits : List ImagingPixel) :
    Option (StatusCode × List ImagingPixel) :=
  (build_groups self hits).map
    (fun groups => (StatusCode.SUCCESS, emit_loop self 0 groups []))

/-! ## Specification-level predicates -/

/-- The relation between the state before and after a stretch of the traversal. -/
structure Grows (alg : ImagingTopoCluster) (hits : List ImagingPixel)
    (st st' : DfsState) (newIdx : List Nat) (new : List ImagingPixel) : Prop where
  group_eq : st'.1 = st.1 ++ new
  at_idx : newIdx.map (fun i => hits[i]?) = new.map some
  nodup : newIdx.Nodup
  fresh : ∀ i ∈ newIdx, st.2[i]? = some false
  energetic : ∀ h ∈ new, alg.minClusterHitEdep ≤ h.edep
  length_eq : st'.2.length = st.2.length
  mono : ∀ i : Nat, st.2[i]? = some true → st'.2[i]? = some true
  marked : ∀ i ∈ newIdx, st'.2[i]? = some true
  visited_only : ∀ i : Nat, st'.2[i]? = some true →
    st.2[i]? = some true ∨ i ∈ newIdx ∨ ∃ h, hits[i]? = some h ∧ h.edep < alg.minClusterHitEdep
  count_le : st'.2.count false ≤ st.2.count false

/-- Adjacency between two members of the hit list `S`. -/
def Adj (self : ImagingTopoCluster) (S : List ImagingPixel) (a b : ImagingPixel) : Prop :=
  a ∈ S ∧ b ∈ S ∧ is_neighbor self a b = true

/-- What one call `dfs_group(group, idx, hits, visits)` achieves. -/
def GroupPost (self : ImagingTopoCluster) (hits : List ImagingPixel) (idx : Nat)
    (st st' : DfsState) : Prop :=
  ∃ newIdx new, Grows self hits st st' newIdx new ∧ st'.2[idx]? = some true ∧
    st'.2.count false < st.2.count false ∧
    ∀ h, hits[idx]? = some h →
      (h.edep < self.minClusterHitEdep ∧ new = []) ∨
      (self.minClusterHitEdep ≤ h.edep ∧ ∃ restI rest, newIdx = idx :: restI ∧ new = h :: rest ∧
        ∀ y ∈ new, Relation.ReflTransGen (Adj self new) h y)

/-- The recursive call behaves as specified whenever at most `depth` hits are unvisited. -/
def RecOK (self : ImagingTopoCluster) (hits : List ImagingPixel) (depth : Nat)
    (recurse : Nat → DfsState → Option DfsState) : Prop :=
  ∀ (idx : Nat) (st : DfsState), st.2.length = hits.length → st.2[idx]? = some false →
    st.2.count false ≤ depth → ∃ st', recurse idx st = some st' ∧ GroupPost self hits idx st st'

/-- The invariant of the first loop of `execute`; `idxGroups` lists, group by group, the
input indices of the hits pushed so far. -/
structure GroupsInv (alg : ImagingTopoCluster) (hits : List ImagingPixel)
    (st : GroupsState) (idxGroups : List (List Nat)) : Prop where
  at_idx : idxGroups.map (fun I => I.map (fun i => hits[i]?)) = st.1.map (fun g => g.map some)
  nodup : idxGroups.flatten.Nodup
  marked : ∀ i ∈ idxGroups.flatten, st.2[i]? = some true
  length_eq : st.2.length = hits.length
  visited_only : ∀ i : Nat, st.2[i]? = some true →
    i ∈ idxGroups.flatten ∨ ∃ h, hits[i]? = some h ∧ h.edep < alg.minClusterHitEdep
  energetic : ∀ g ∈ st.1, ∀ h ∈ g, alg.minClusterHitEdep ≤ h.edep
  connected : ∀ g ∈ st.1, ∀ a ∈ g, ∀ b ∈ g, Relation.ReflTransGen (Adj alg g) a b
  seeded : ∀ g ∈ st.1, ∃ h ∈ hits, alg.minClusterCenterEdep ≤ h.edep ∧
    ∀ x, g.head? = some x → x = h

/-- The post-grouping filter condition: the group has at least `minClusterNhits` hits and
its summed energy is at least `minClusterEdep`. -/
def passes_filter (self : ImagingTopoCluster) (group : List ImagingPixel) : Bool :=
  decide (self.minClusterNhits ≤ (group.length : Int) ∧
    self.minClusterEdep ≤ (group.map ImagingPixel.edep).sum)

/-! ## Concrete inputs used by the examples -/

/-- A hit at the origin of sector 0, layer 0, with energy 1. -/
def hit_origin : ImagingPixel :=
  { clusterID := 0, layerID := 0, sectorID := 0, hitID := 0, edep := 1, time := 0, eta := 0,
    local_x := 0, local_y := 0, local_z := 0, x := 0, y := 0, z := 0, r := 0, theta := 0,
    phi := 0 }

/-- A hit of sector 1 at global position `(3, 4, 0)`, at distance 5 from the origin. -/
def hit_far_sector : ImagingPixel :=
  { hit_origin with sectorID := 1, hitID := 1, x := 3, y := 4 }

/-- A hit of sector 0, layer 0 at local position `(1, 3, 0)`. -/
def hit_same_layer : ImagingPixel :=
  { hit_origin with hitID := 2, local_x := 1, local_y := 3 }

/-- A hit of sector 0, layer 2 with the same `eta` and `phi` as `hit_origin`. -/
def hit_layer2 : ImagingPixel :=
  { hit_origin with hitID := 3, layerID := 2 }

/-- A configuration with `neighbourLayersRange = 1`, `localDistXY = (2, 2)`,
`layerDistEtaPhi = (1/100, 1/100)`, `sectorDist = 5` and all thresholds zero. -/
def cfg_open : ImagingTopoCluster :=
  { neighbourLayersRange := 1, localDistXY := (2, 2), layerDistEtaPhi := (1 / 100, 1 / 100),
    sectorDist := 5, minClusterHitEdep := 0, minClusterCenterEdep := 0, minClusterEdep := 0,
    minClusterNhits := 0 }

/-- The configuration `cfg_open` with the seed threshold `minClusterCenterEdep` raised to 2,
above the participation threshold `minClusterHitEdep = 0`. -/
def cfg_seed2 : ImagingTopoCluster :=
  { cfg_open with minClusterCenterEdep := 2 }

/-- The configuration `cfg_open` with both energy thresholds raised to 2. -/
def cfg_both2 : ImagingTopoCluster :=
  { cfg_open with minClusterHitEdep := 2, minClusterCenterEdep := 2 }

/-! ## `ImagingTopoCluster::initialize` -/

/-- The unit constants of `Gaudi::Units` read by `ImagingTopoCluster::initialize`. They are
declared in Gaudi, outside the repository, and are taken as parameters. -/
structure Units where
  mm : ℚ
  rad : ℚ
  GeV : ℚ
deriving DecidableEq, Repr

/-- The Gaudi properties of `ImagingTopoCluster`, as set by the job configuration before
`initialize` runs. -/
structure ImagingTopoClusterProperties where
  m_neighbourLayersRange : Int
  u_localDistXY : List ℚ
  u_layerDistEtaPhi : List ℚ
  m_sectorDist : ℚ
  m_minClusterHitEdep : ℚ
  m_minClusterCenterEdep : ℚ
  m_minClusterEdep : ℚ
  m_minClusterNhits : Int
deriving DecidableEq, Repr

/-- The method `ImagingTopoCluster::initialize`: the status code returned and, on success,
the unitless members it fills in. `base` is the result of `GaudiAlgorithm::initialize()`. -/
def ImagingTopoCluster.initialize (units : Units) (base : StatusCode)
    (props : ImagingTopoClusterProperties) : StatusCode × Option ImagingTopoCluster :=
  if base = StatusCode.FAILURE then
    (StatusCode.FAILURE, none)
  -- sanity checks
  else if props.u_localDistXY.length ≠ 2 then
    (StatusCode.FAILURE, none)
  else if props.u_layerDistEtaPhi.length ≠ 2 then
    (StatusCode.FAILURE, none)
  else
    (StatusCode.SUCCESS, some
      { neighbourLayersRange := props.m_neighbourLayersRange,
        localDistXY := (props.u_localDistXY.getD 0 0 / units.mm,
          props.u_localDistXY.getD 1 0 / units.mm),
        layerDistEtaPhi := (props.u_layerDistEtaPhi.getD 0 0,
          props.u_layerDistEtaPhi.getD 1 0 / units.rad),
        sectorDist := props.m_sectorDist / units.mm,
        minClusterHitEdep := props.m_minClusterHitEdep / units.GeV,
        minClusterCenterEdep := props.m_minClusterCenterEdep / units.GeV,
        minClusterEdep := props.m_minClusterEdep / units.GeV,
        minClusterNhits := props.m_minClusterNhits })

/-! ## Cluster reconstruction with the centre-of-gravity method (`ClusterRecoCoG`)

A shallow embedding of `JugReco/src/components/ClusterRecoCoG.cpp`.  Numbers are exact
rationals as above.  A division by zero has no value in exact arithmetic (in floating
point it gives an infinity or a NaN): the division `v / tw` of `reconstruct` is modelled
by `Vector3f.div`, which returns `none` for a zero divisor.  The function `reconstruct`
does not stop there: it goes on to its end with a position that is not a finite vector,
and so does the model, with the outcome `Reconstructed.division_by_zero`. -/

/-- Modelled from the spec: the value type `eicd::Vector3f` of a 3D position (declared in
the `eicd` data model, outside the repository), with exact rational components. -/
structure Vector3f where
  x : ℚ
  y : ℚ
  z : ℚ
deriving DecidableEq, Repr

/-- Modelled from the spec: `operator+` of `eicd/vector_utils.h`, the componentwise sum. -/
def Vector3f.add (a b : Vector3f) : Vector3f :=
  { x := a.x + b.x, y := a.y + b.y, z := a.z + b.z }

/-- Modelled from the spec: `operator-` of `eicd/vector_utils.h`, the componentwise
difference. -/
def Vector3f.sub (a b : Vector3f) : Vector3f :=
  { x := a.x - b.x, y := a.y - b.y, z := a.z - b.z }

/-- Modelled from the spec: `operator*` of `eicd/vector_utils.h` for a vector and a scalar. -/
def Vector3f.scale (v : Vector3f) (s : ℚ) : Vector3f :=
  { x := v.x * s, y := v.y * s, z := v.z * s }

/-- Modelled from the spec: `operator*` of `eicd/vector_utils.h` for two vectors, the dot
product (so that `delta * delta` is `|delta|²`). -/
def Vector3f.dot (a b : Vector3f) : ℚ :=
  a.x * b.x + a.y * b.y + a.z * b.z

/-- Modelled from the spec: `operator/` of `eicd/vector_utils.h` for a vector and a scalar.
The result is `none` when the divisor is zero: the quotient is then not a finite number. -/
def Vector3f.div (v : Vector3f) (s : ℚ) : Option Vector3f :=
  if s = 0 then none else some { x := v.x / s, y := v.y / s, z := v.z / s }

/-- The functions of `<cmath>` and of `eicd/vector_utils.h` called by `ClusterRecoCoG`,
and the narrowing of a `double` to a `float`. They are library code or arithmetic of the
machine outside the repository, and their values are not rational in general: they are
taken as parameters. -/
structure MathFunctions where
  /-- The function `std::log`. -/
  log : ℚ → ℚ
  /-- The function `sqrt`. -/
  sqrt : ℚ → ℚ
  /-- The function `eicd::eta`: the pseudorapidity of a position. -/
  eta : Vector3f → ℚ
  /-- The function `eicd::etaToAngle`: the polar angle of a pseudorapidity. -/
  etaToAngle : ℚ → ℚ
  /-- The function `eicd::magnitude`. -/
  magnitude : Vector3f → ℚ
  /-- The function `eicd::anglePolar`. -/
  anglePolar : Vector3f → ℚ
  /-- The function `eicd::angleAzimuthal`. -/
  angleAzimuthal : Vector3f → ℚ
  /-- The function `eicd::sphericalToVector`, of radius, polar and azimuthal angle. -/
  sphericalToVector : ℚ → ℚ → ℚ → Vector3f
  /-- The conversion of a `double` to the nearest `float`, which `reconstruct` applies to the
  pseudorapidity of every hit: `const float eta = eicd::eta(hit.getPosition())`. -/
  to_float : ℚ → ℚ

/-- The members of `eicd::CalorimeterHit` read by `reconstruct`. -/
structure CalorimeterHit where
  energy : ℚ
  time : ℚ
  timeError : ℚ
  position : Vector3f
deriving DecidableEq, Repr

/-- The record `eicd::ProtoCluster`: the hits and the parallel vector of per-hit weights,
of the same length. -/
structure ProtoCluster where
  hits : List CalorimeterHit
  weights : List ℚ
  weights_size : weights.length = hits.length

/-- The covariance record `eicd::Cov3f` of `positionError`. -/
structure Cov3f where
  xx : ℚ
  yy : ℚ
  zz : ℚ
  xy : ℚ
  xz : ℚ
  yz : ℚ
deriving DecidableEq, Repr

/-- The members of `eicd::Cluster` written by `reconstruct`. -/
structure Cluster where
  nhits : Nat
  energy : ℚ
  energyError : ℚ
  time : ℚ
  timeError : ℚ
  position : Vector3f
  positionError : Cov3f
  intrinsicTheta : ℚ
  intrinsicPhi : ℚ
  shapeParameters : List ℚ
deriving DecidableEq, Repr

/-- The default-constructed `eicd::MutableCluster cl;`: every member zero, no shape
parameters. -/
def Cluster.empty : Cluster :=
  { nhits := 0, energy := 0, energyError := 0, time := 0, timeError := 0,
    position := { x := 0, y := 0, z := 0 },
    positionError := { xx := 0, yy := 0, zz := 0, xy := 0, xz := 0, yz := 0 },
    intrinsicTheta := 0, intrinsicPhi := 0, shapeParameters := [] }

/-- The members of a cluster that `reconstruct` computes from the position: the position,
the two intrinsic angles and the shape parameters. A member is `some` finite value, or
`none` when it is computed from a position that is not a finite vector: such a value is not
a number of this model. -/
structure PositionMembers where
  position : Option Vector3f
  intrinsicTheta : Option ℚ
  intrinsicPhi : Option ℚ
  shapeParameters : List (Option ℚ)
deriving DecidableEq, Repr

/-- The outcome of `reconstruct`. -/
inductive Reconstructed where
  /-- The function `reconstruct` returned the cluster `cl`, all of whose members are finite
  numbers. -/
  | done (cl : Cluster)
  /-- The function `reconstruct` evaluated `v / tw` with `tw == 0` and went on to its end.
  The record `cl` holds the members written before that division (`nhits`, `energy`,
  `energyError`, `time`, `timeError`); `members` holds the position, which is not a finite
  vector, and the members computed from it afterwards. -/
  | division_by_zero (cl : Cluster) (members : PositionMembers)
deriving DecidableEq, Repr

/-- The cluster record carried by an outcome. After a division by zero its position, angles
and shape parameters are not those of the returned cluster, which are in `members`. -/
def Reconstructed.cluster : Reconstructed → Cluster
  | Reconstructed.done cl => cl
  | Reconstructed.division_by_zero cl _ => cl

/-- The position, the intrinsic angles and the shape parameters of the returned cluster,
for both outcomes. -/
def Reconstructed.members : Reconstructed → PositionMembers
  | Reconstructed.done cl =>
    { position := some cl.position, intrinsicTheta := some cl.intrinsicTheta,
      intrinsicPhi := some cl.intrinsicPhi, shapeParameters := cl.shapeParameters.map some }
  | Reconstructed.division_by_zero _ members => members

/-- The type `std::function<double(double, double, double, int)>` of a weighting function:
hit energy, total energy, one parameter and module type. -/
abbrev WeightFunc := ℚ → ℚ → ℚ → Int → ℚ

/-- The weighting function `constWeight`. -/
def constWeight : WeightFunc := fun _E _tE _p _type => 1

/-- The weighting function `linearWeight`. -/
def linearWeight : WeightFunc := fun E _tE _p _type => E

/-- The weighting function `logWeight`; `log` is `std::log`, and `max` is
`std::max(0., x)`. Where `E / tE` is not positive the C++ logarithm is not a finite number;
the model gives it the value of the parameter `log` there. -/
def logWeight (log : ℚ → ℚ) : WeightFunc := fun E tE base _type =>
  max 0 (base + log (E / tE))

/-- The registry `weightMethods`. -/
def weightMethods (log : ℚ → ℚ) : List (String × WeightFunc) :=
  [("none", constWeight), ("linear", linearWeight), ("log", logWeight log)]

/-- The geometry service, as far as `ClusterRecoCoG::initialize` uses it:
`detector()->constantAsDouble(name)`. -/
structure GeoSvc where
  constantAsDouble : String → ℚ

/-- The data members of `ClusterRecoCoG`: its properties and the selected `weightFunc`. -/
structure ClusterRecoCoG where
  /-- Property `samplingFraction`, a calibration constant. `reconstruct` divides by it; the
  model gives that quotient no meaning when the constant is zero. -/
  m_sampFrac : ℚ
  m_logWeightBase : ℚ
  m_depthCorrection : ℚ
  m_energyWeight : String
  m_moduleDimZName : String
  m_enableEtaBounds : Bool
  weightFunc : WeightFunc

/-- The method `ClusterRecoCoG::initialize`: the status code returned and the members
afterwards. `base` is the result of `GaudiAlgorithm::initialize()`, `geoSvc` the result of
`service("GeoSvc")` (`none` when the service is not found). -/
def ClusterRecoCoG.initialize (lib : MathFunctions) (base : StatusCode)
    (geoSvc : Option GeoSvc) (self : ClusterRecoCoG) : StatusCode × ClusterRecoCoG :=
  if base = StatusCode.FAILURE then
    (StatusCode.FAILURE, self)
  else
    match geoSvc with
    | none => (StatusCode.FAILURE, self)
    | some geo =>
      -- update depth correction if a name is provided
      let self1 : ClusterRecoCoG :=
        if !self.m_moduleDimZName.isEmpty then
          { self with m_depthCorrection := geo.constantAsDouble self.m_moduleDimZName }
        else self
      -- select weighting method; make it case-insensitive
      let ew : String := self1.m_energyWeight.map Char.toLower
      match (weightMethods lib.log).lookup ew with
      | none => (StatusCode.FAILURE, self1)
      | some f => (StatusCode.SUCCESS, { self1 with weightFunc := f })

/-- The constant `std::numeric_limits<float>::max()`, the largest finite `float`,
`(2²⁴ − 1) · 2¹⁰⁴`. -/
def FLT_MAX : ℚ := 340282346638528859811704183484516925440

/-- The constant `std::numeric_limits<float>::min()`, the smallest positive normalised
`float`, `2⁻¹²⁶`. -/
def FLT_MIN : ℚ := 1 / 85070591730234615865843651857942052864

/-- The variables of the first loop of `reconstruct`. (`maxE` is never written: the body of
`if (energy > maxE)` is empty.) -/
structure EnergySums where
  totalE : ℚ
  minHitEta : ℚ
  maxHitEta : ℚ
deriving DecidableEq, Repr

/-- The body of the first loop of `reconstruct`, for the hit and weight of one index. The
pseudorapidity of the hit is narrowed to a `float` (`const float eta`), and the two bounds
are `float` variables; the clamp block compares them with a pseudorapidity that is not
narrowed. -/
def energy_step (lib : MathFunctions) (st : EnergySums) (hw : CalorimeterHit × ℚ) :
    EnergySums :=
  let energy : ℚ := hw.1.energy * hw.2
  let eta : ℚ := lib.to_float (lib.eta hw.1.position)
  { totalE := st.totalE + energy,
    minHitEta := if eta < st.minHitEta then eta else st.minHitEta,
    maxHitEta := if eta > st.maxHitEta then eta else st.maxHitEta }

/-- The weight `w` of one hit in the second loop of `reconstruct`:
`weightFunc(hit.getEnergy() * weight, totalE, m_logWeightBase.value(), 0)`. -/
def cog_weight (self : ClusterRecoCoG) (totalE : ℚ) (hw : CalorimeterHit × ℚ) : ℚ :=
  self.weightFunc (hw.1.energy * hw.2) totalE self.m_logWeightBase 0

/-- The body of the second loop of `reconstruct` on `(tw, v)`. -/
def cog_step (self : ClusterRecoCoG) (totalE : ℚ) (st : ℚ × Vector3f)
    (hw : CalorimeterHit × ℚ) : ℚ × Vector3f :=
  let w : ℚ := cog_weight self totalE hw
  (st.1 + w, st.2.add (hw.1.position.scale w))

/-- The first loop of `reconstruct`: the total energy and the eta range of the hits,
started from `totalE = 0`, `minHitEta = numeric_limits<float>::max()` and
`maxHitEta = numeric_limits<float>::min()`. -/
def energy_sums (lib : MathFunctions) (pcl : ProtoCluster) : EnergySums :=
  (pcl.hits.zip pcl.weights).foldl (energy_step lib)
    { totalE := 0, minHitEta := FLT_MAX, maxHitEta := FLT_MIN }

/-- The block "Optionally constrain the cluster to the hit eta values" of `reconstruct`:
the position of the cluster after it. -/
def constrain_eta (lib : MathFunctions) (self : ClusterRecoCoG) (sums : EnergySums)
    (position : Vector3f) : Vector3f :=
  if self.m_enableEtaBounds then
    let overflow : Bool := decide (lib.eta position > sums.maxHitEta)
    let underflow : Bool := decide (lib.eta position < sums.minHitEta)
    if overflow || underflow then
      let newEta : ℚ := if overflow then sums.maxHitEta else sums.minHitEta
      let newTheta : ℚ := lib.etaToAngle newEta
      let newR : ℚ := lib.magnitude position
      let newPhi : ℚ := lib.angleAzimuthal position
      lib.sphericalToVector newR newTheta newPhi
    else position
  else position

/-- The function `ClusterRecoCoG::reconstruct`. The two index loops run over the hits and
the weights in parallel, which are the pairs of `hits.zip weights`. When `tw == 0` the
source divides by it all the same and runs to its end on a position that is not a finite
vector: the second branch of the `match` follows the same statements on that position. -/
def ClusterRecoCoG.reconstruct (lib : MathFunctions) (self : ClusterRecoCoG)
    (pcl : ProtoCluster) : Reconstructed :=
  let cl0 : Cluster := { Cluster.empty with nhits := pcl.hits.length }
  -- no hits
  match pcl.hits with
  | [] => Reconstructed.done cl0
  | hit0 :: _ =>
    -- calculate total energy, find the eta range of the hits
    let sums : EnergySums := energy_sums lib pcl
    let cl1 : Cluster :=
      { cl0 with energy := sums.totalE / self.m_sampFrac, energyError := 0,
                 time := hit0.time, timeError := hit0.timeError }
    -- center of gravity with logarithmic weighting
    let twv : ℚ × Vector3f := (pcl.hits.zip pcl.weights).foldl (cog_step self sums.totalE)
      (0, cl1.position)
    -- if (tw == 0.) a warning is printed
    match twv.2.div twv.1 with
    | none =>
      -- the quotient `v / tw` is not a finite vector, and the function goes on with it
      let position : Option Vector3f := none
      -- Optionally constrain the cluster to the hit eta values: the position, re-projected
      -- or not, is still not a finite vector
      let position1 : Option Vector3f := position.map (constrain_eta lib self sums)
      -- best estimate on the cluster direction is the cluster position
      let intrinsicTheta : Option ℚ := position1.map lib.anglePolar
      let intrinsicPhi : Option ℚ := position1.map lib.angleAzimuthal
      -- Calculate radius
      if cl1.nhits > 1 then
        let radius1 : Option ℚ := position1.map (fun P =>
          let radius : ℚ := pcl.hits.foldl
            (fun radius hit =>
              let delta : Vector3f := P.sub hit.position
              radius + delta.dot delta) 0
          lib.sqrt ((1 / ((cl1.nhits : ℚ) - 1)) * radius))
        Reconstructed.division_by_zero cl1
          { position := position1, intrinsicTheta := intrinsicTheta,
            intrinsicPhi := intrinsicPhi, shapeParameters := [radius1, some 0] }
      else
        Reconstructed.division_by_zero cl1
          { position := position1, intrinsicTheta := intrinsicTheta,
            intrinsicPhi := intrinsicPhi, shapeParameters := [] }
    | some p =>
      let cl2 : Cluster :=
        { cl1 with position := p,
                   positionError := { xx := 0, yy := 0, zz := 0, xy := 0, xz := 0, yz := 0 } }
      -- Optionally constrain the cluster to the hit eta values
      let cl3 : Cluster := { cl2 with position := constrain_eta lib self sums cl2.position }
      -- best estimate on the cluster direction is the cluster position
      let cl4 : Cluster :=
        { cl3 with intrinsicTheta := lib.anglePolar cl3.position,
                   intrinsicPhi := lib.angleAzimuthal cl3.position }
      -- Calculate radius
      if cl4.nhits > 1 then
        let radius : ℚ := pcl.hits.foldl
          (fun radius hit =>
            let delta : Vector3f := cl4.position.sub hit.position
            radius + delta.dot delta) 0
        let radius1 : ℚ := lib.sqrt ((1 / ((cl4.nhits : ℚ) - 1)) * radius)
        Reconstructed.done
          { cl4 with shapeParameters := cl4.shapeParameters ++ [radius1, 0] }
      else
        Reconstructed.done cl4

/-! ## Specification-level quantities of the reconstruction -/

/-- The sum `Σ_i hit_i.energy × weight_i`. -/
def total_energy (pcl : ProtoCluster) : ℚ :=
  ((pcl.hits.zip pcl.weights).map (fun hw => hw.1.energy * hw.2)).sum

/-- The weights `w_i`: the selected weighting function applied to `hit_i.energy × weight_i`,
the sum `total_energy`, the log-weight base and module type 0. -/
def position_weights (self : ClusterRecoCoG) (pcl : ProtoCluster) : List ℚ :=
  (pcl.hits.zip pcl.weights).map
    (fun hw => self.weightFunc (hw.1.energy * hw.2) (total_energy pcl) self.m_logWeightBase 0)

/-- The sum `Σ_i c(hit_i.position) × w_i` for one coordinate `c`. -/
def weighted_coordinate_sum (self : ClusterRecoCoG) (pcl : ProtoCluster)
    (c : Vector3f → ℚ) : ℚ :=
  ((pcl.hits.zip pcl.weights).map
    (fun hw => c hw.1.position
      * self.weightFunc (hw.1.energy * hw.2) (total_energy pcl) self.m_logWeightBase 0)).sum

/-- The weighted centroid `Σ_i(hit_i.position × w_i) / Σ_i(w_i)`. -/
def center_of_gravity (self : ClusterRecoCoG) (pcl : ProtoCluster) : Vector3f :=
  { x := weighted_coordinate_sum self pcl Vector3f.x / (position_weights self pcl).sum,
    y := weighted_coordinate_sum self pcl Vector3f.y / (position_weights self pcl).sum,
    z := weighted_coordinate_sum self pcl Vector3f.z / (position_weights self pcl).sum }

/-- The weighted centroid as far as it is a finite vector: there is none when the total
weight `Σ_i(w_i)` is zero. -/
def weighted_centroid (self : ClusterRecoCoG) (pcl : ProtoCluster) : Option Vector3f :=
  if (position_weights self pcl).sum = 0 then none else some (center_of_gravity self pcl)

/-- The unweighted arithmetic mean `(1/n) Σ_i hit_i.position` of the hit positions. -/
def mean_position (pcl : ProtoCluster) : Vector3f :=
  { x := (pcl.hits.map (fun hit => hit.position.x)).sum / (pcl.hits.length : ℚ),
    y := (pcl.hits.map (fun hit => hit.position.y)).sum / (pcl.hits.length : ℚ),
    z := (pcl.hits.map (fun hit => hit.position.z)).sum / (pcl.hits.length : ℚ) }

/-- The sum `Σ_i |hit_i.position − P|²` of squared distances to the point `P`. -/
def squared_distance_sum (pcl : ProtoCluster) (P : Vector3f) : ℚ :=
  (pcl.hits.map (fun hit => (P.x - hit.position.x) ^ 2 + (P.y - hit.position.y) ^ 2
    + (P.z - hit.position.z) ^ 2)).sum


/-! ## Concrete inputs for the reconstruction examples -/

/-- Rational stand-ins for the library functions, used only to evaluate the model on
concrete inputs. `eta` is `sinh(η)·|sinh(η)| = ± z² / (x² + y²)`, an increasing function of
the pseudorapidity `η` with the sign of `η`; `sqrt` is exact on squares of rationals;
`sphericalToVector` keeps its three arguments as the components; `magnitude` is the squared
length; `to_float` is exact, as it is on every number that is a `float`. -/
def stand_in : MathFunctions :=
  { log := fun _ => 0,
    sqrt := fun q => (Nat.sqrt q.num.toNat : ℚ) / (Nat.sqrt q.den : ℚ),
    eta := fun v => (if 0 ≤ v.z then 1 else -1) * v.z ^ 2 / (v.x ^ 2 + v.y ^ 2),
    etaToAngle := fun eta => eta,
    magnitude := fun v => v.x ^ 2 + v.y ^ 2 + v.z ^ 2,
    anglePolar := fun v => (v.x ^ 2 + v.y ^ 2) / v.z,
    angleAzimuthal := fun v => v.y / v.x,
    sphericalToVector := fun r theta phi => { x := r, y := theta, z := phi },
    to_float := fun q => q }

/-- A `ClusterRecoCoG` with weighting `constWeight` (`"none"`), `samplingFraction = 1`,
`logWeightBase = 3.6` and the eta clamp disabled. -/
def reco_none : ClusterRecoCoG :=
  { m_sampFrac := 1, m_logWeightBase := 36 / 10, m_depthCorrection := 0,
    m_energyWeight := "none", m_moduleDimZName := "", m_enableEtaBounds := false,
    weightFunc := constWeight }

/-- The configuration `reco_none` with the eta clamp enabled. -/
def reco_none_clamped : ClusterRecoCoG :=
  { reco_none with m_enableEtaBounds := true }

/-- The configuration `reco_none` with weighting `linearWeight` (`"linear"`). -/
def reco_linear : ClusterRecoCoG :=
  { reco_none with m_energyWeight := "linear", weightFunc := linearWeight }

/-- A hit of the given energy at the given position, with time 5 and time error 1. -/
def hit_at (energy x y z : ℚ) : CalorimeterHit :=
  { energy := energy, time := 5, timeError := 1, position := { x := x, y := y, z := z } }

/-- The proto-cluster without hits. -/
def pcl_empty : ProtoCluster :=
  { hits := [], weights := [], weights_size := rfl }

/-- Scenario A: two hits of energy 1 and weight 1, at `(1, 0, 1)` and `(0, 1, 1)`. -/
def pcl_pair : ProtoCluster :=
  { hits := [hit_at 1 1 0 1, hit_at 1 0 1 1], weights := [1, 1], weights_size := rfl }

/-- Three hits of energies 1, 2, 1 and weight 1 on the line `y = 0`, `z = 1`, at
`x = 0, 2, 4`. -/
def pcl_line : ProtoCluster :=
  { hits := [hit_at 1 0 0 1, hit_at 2 2 0 1, hit_at 1 4 0 1], weights := [1, 1, 1],
    weights_size := rfl }

/-- One hit of energy 0 and weight 1. -/
def pcl_zero_energy : ProtoCluster :=
  { hits := [hit_at 0 1 0 1], weights := [1], weights_size := rfl }

/-- The relation between the `visits` flags before and after a returned call of
`dfs_group`: flags are only ever set, and every neighbour of a hit pushed in between is
visited afterwards. -/
def Closes (self : ImagingTopoCluster) (hits : List ImagingPixel) (v v' : List Bool) : Prop :=
  v'.length = v.length ∧
  (∀ i : Nat, v[i]? = some true → v'[i]? = some true) ∧
  ∀ (j : Nat) (hj : ImagingPixel), hits[j]? = some hj → ¬ hj.edep < self.minClusterHitEdep →
    v[j]? = some false → v'[j]? = some true →
    ∀ (k : Nat) (hk : ImagingPixel), hits[k]? = some hk → is_neighbor self hj hk = true →
      v'[k]? = some true

/-- A recursive call that returns leaves the flags as `Closes` says and marks its index. -/
def RecCloses (self : ImagingTopoCluster) (hits : List ImagingPixel)
    (recurse : Nat → DfsState → Option DfsState) : Prop :=
  ∀ (idx : Nat) (st st' : DfsState), recurse idx st = some st' →
    st.2.length = hits.length → Closes self hits st.2 st'.2 ∧ st'.2[idx]? = some true

/-- The invariant of the first loop of `execute` behind maximality; `idxGroups` lists, group
by group, the input indices of the hits pushed so far. -/
structure MaxInv (alg : ImagingTopoCluster) (hits : List ImagingPixel)
    (st : GroupsState) (idxGroups : List (List Nat)) : Prop where
  at_idx : idxGroups.map (fun I => I.map (fun i => hits[i]?)) = st.1.map (fun g => g.map some)
  length_eq : st.2.length = hits.length
  visited_only : ∀ i : Nat, st.2[i]? = some true →
    i ∈ idxGroups.flatten ∨ ∃ h, hits[i]? = some h ∧ h.edep < alg.minClusterHitEdep
  neighbours_visited : ∀ I ∈ idxGroups, ∀ i ∈ I, ∀ a : ImagingPixel, hits[i]? = some a →
    ∀ (k : Nat) (hk : ImagingPixel), hits[k]? = some hk → is_neighbor alg a hk = true →
      st.2[k]? = some true
  closed : ∀ I ∈ idxGroups, ∀ i ∈ I, ∀ a : ImagingPixel, hits[i]? = some a →
    ∀ (j : Nat) (b : ImagingPixel), hits[j]? = some b → alg.minClusterHitEdep ≤ b.edep →
      is_neighbor alg a b = true → j ∈ I


/-! ## Concrete inputs for the cluster-ID and termination examples -/

/-- The hit `hit_origin` carrying cluster ID 7 on input. -/
def hit_cid7 : ImagingPixel :=
  { hit_origin with clusterID := 7 }

/-- The hit `hit_layer2` (layer 2) carrying cluster ID 8 on input; it is not a neighbour of
`hit_cid7` (layer 0) with `neighbourLayersRange = 1`. -/
def hit_cid8 : ImagingPixel :=
  { hit_layer2 with clusterID := 8 }


/-! ## Further quantities and inputs for the reconstruction claims -/

/-- The component `self` with a weighting function that is handed the fixed value `tE` as
its total-energy argument, whatever the caller passes. -/
def with_total_energy (self : ClusterRecoCoG) (tE : ℚ) : ClusterRecoCoG :=
  { self with weightFunc := fun E _tE p type => self.weightFunc E tE p type }

/-- The stand-ins `stand_in` with `log x = x - 1`, the first-order expansion of the
logarithm at 1: a rational stand-in that is strictly increasing, as the logarithm is. -/
def stand_in_log : MathFunctions :=
  { stand_in with log := fun x => x - 1 }

/-- A `ClusterRecoCoG` with weighting `logWeight` (`"log"`), `samplingFraction = 2`,
`logWeightBase = 3.6` and the eta clamp disabled. -/
def reco_log_half : ClusterRecoCoG :=
  { m_sampFrac := 2, m_logWeightBase := 36 / 10, m_depthCorrection := 0,
    m_energyWeight := "log", m_moduleDimZName := "", m_enableEtaBounds := false,
    weightFunc := logWeight stand_in_log.log }

/-- Two hits of energies 1 and 3 and weight 1, at `(1, 0, 1)` and `(2, 0, 1)`. -/
def pcl_unequal : ProtoCluster :=
  { hits := [hit_at 1 1 0 1, hit_at 3 2 0 1], weights := [1, 1], weights_size := rfl }

/-- Two hits of energy 1 and weight 1 with different times: the first with time 3 and time
error 2, the second with time 9 and time error 4. -/
def pcl_times : ProtoCluster :=
  { hits := [{ energy := 1, time := 3, timeError := 2, position := { x := 1, y := 0, z := 1 } },
             { energy := 1, time := 9, timeError := 4, position := { x := 0, y := 1, z := 1 } }],
    weights := [1, 1], weights_size := rfl }

/-- Two hits of energy 1 and weight 1 in the backward hemisphere, at `(1, 0, -1)` and
`(2, 0, -1)`: both pseudorapidities are negative. -/
def pcl_backward_plain : ProtoCluster :=
  { hits := [hit_at 1 1 0 (-1), hit_at 1 2 0 (-1)], weights := [1, 1], weights_size := rfl }

/-- Two hits of energy 0 and weight 1, at `(1, 0, 1)` and `(0, 1, 1)`: with linear weighting
the total weight is zero. -/
def pcl_zero_pair : ProtoCluster :=
  { hits := [hit_at 0 1 0 1, hit_at 0 0 1 1], weights := [1, 1], weights_size := rfl }

/-! ## The adjacency predicate -/

/-- The model `sqrt_le` of `std::sqrt(s) <= d` agrees with the real square root. -/
theorem sqrt_le_iff (s d : ℚ) : sqrt_le s d = true ↔ Real.sqrt (s : ℝ) ≤ (d : ℝ) := by
  unfold sqrt_le
  rw [decide_eq_true_iff, Real.sqrt_le_iff]
  constructor
  · rintro ⟨h0, h1⟩
    refine ⟨by exact_mod_cast h0, ?_⟩
    have : (s : ℝ) ≤ ((d * d : ℚ) : ℝ) := by exact_mod_cast h1
    simpa [pow_two] using this
  · rintro ⟨h0, h1⟩
    refine ⟨by exact_mod_cast h0, ?_⟩
    have : (s : ℝ) ≤ ((d * d : ℚ) : ℝ) := by simpa [pow_two] using h1
    exact_mod_cast this

/-! ## The depth-first grouping -/

theorem count_false_set_true : ∀ (v : List Bool) (idx : Nat), v[idx]? = some false →
    (v.set idx true).count false + 1 = v.count false
  | [], idx, h => by simp at h
  | b :: v, 0, h => by
    simp at h
    subst h
    simp
  | b :: v, idx + 1, h => by
    have ih := count_false_set_true v idx (by simpa using h)
    cases b <;> simp [List.count_cons] <;> omega

theorem getElem?_false_of_length_mono {v w : List Bool} (hlen : w.length = v.length)
    (hmono : ∀ i : Nat, v[i]? = some true → w[i]? = some true) {i : Nat}
    (h : w[i]? = some false) : v[i]? = some false := by
  have hi : i < v.length := by
    rw [← hlen]
    exact (List.getElem?_eq_some.mp h).1
  cases hb : v[i] with
  | false => exact List.getElem?_eq_some.mpr ⟨hi, hb⟩
  | true =>
    have := hmono i (List.getElem?_eq_some.mpr ⟨hi, hb⟩)
    rw [h] at this
    cases this

theorem grows_refl (self : ImagingTopoCluster) (hits : List ImagingPixel) (st : DfsState) :
    Grows self hits st st [] [] where
  group_eq := by simp
  at_idx := rfl
  nodup := List.nodup_nil
  fresh := by simp
  energetic := by simp
  length_eq := rfl
  mono := fun _ h => h
  marked := by simp
  visited_only := fun _ h => Or.inl h
  count_le := le_rfl

theorem grows_trans {self : ImagingTopoCluster} {hits : List ImagingPixel}
    {st st' st'' : DfsState} {I J : List Nat} {N M : List ImagingPixel}
    (h1 : Grows self hits st st' I N) (h2 : Grows self hits st' st'' J M) :
    Grows self hits st st'' (I ++ J) (N ++ M) := by
  constructor
  · rw [h2.group_eq, h1.group_eq, List.append_assoc]
  · rw [List.map_append, List.map_append, h1.at_idx, h2.at_idx]
  · rw [List.nodup_append]
    refine ⟨h1.nodup, h2.nodup, ?_⟩
    intro i hi hj
    have a := h1.marked i hi
    have b := h2.fresh i hj
    rw [a] at b
    cases b
  · intro i hi
    rcases List.mem_append.mp hi with hi | hi
    · exact h1.fresh i hi
    · exact getElem?_false_of_length_mono h1.length_eq h1.mono (h2.fresh i hi)
  · intro h hh
    rcases List.mem_append.mp hh with hh | hh
    · exact h1.energetic h hh
    · exact h2.energetic h hh
  · rw [h2.length_eq, h1.length_eq]
  · exact fun i h => h2.mono i (h1.mono i h)
  · intro i hi
    rcases List.mem_append.mp hi with hi | hi
    · exact h2.mono i (h1.marked i hi)
    · exact h2.marked i hi
  · intro i hi
    rcases h2.visited_only i hi with h | h | h
    · rcases h1.visited_only i h with h | h | h
      · exact Or.inl h
      · exact Or.inr (Or.inl (List.mem_append_left _ h))
      · exact Or.inr (Or.inr h)
    · exact Or.inr (Or.inl (List.mem_append_right _ h))
    · exact Or.inr (Or.inr h)
  · exact le_trans h2.count_le h1.count_le

theorem adj_mono {self : ImagingTopoCluster} {S T : List ImagingPixel}
    (hST : ∀ x ∈ S, x ∈ T) (a b : ImagingPixel) (h : Adj self S a b) : Adj self T a b :=
  ⟨hST a h.1, hST b h.2.1, h.2.2⟩

theorem getElem?_false_of_getD {v : List Bool} {i : Nat} (hi : i < v.length)
    (h : v.getD i false = false) : v[i]? = some false := by
  rw [List.getD_eq_getElem?_getD, List.getElem?_eq_getElem hi] at h
  rw [List.getElem?_eq_getElem hi]
  simpa using h

theorem dfs_loop_spec (self : ImagingTopoCluster) (hits : List ImagingPixel) (depth : Nat)
    (recurse : Nat → DfsState → Option DfsState) (hrec : RecOK self hits depth recurse)
    (hit : ImagingPixel) :
    ∀ (is : List Nat) (st : DfsState), (∀ i ∈ is, i < hits.length) →
      st.2.length = hits.length → st.2.count false ≤ depth →
      ∃ st' newIdx new, dfs_loop self hits recurse hit is st = some st' ∧
        Grows self hits st st' newIdx new ∧
        ∀ S : List ImagingPixel, hit ∈ S → (∀ x ∈ new, x ∈ S) →
          ∀ y ∈ new, Relation.ReflTransGen (Adj self S) hit y := by
  intro is
  induction is with
  | nil =>
    intro st _ _ _
    exact ⟨st, [], [], rfl, grows_refl self hits st, by simp⟩
  | cons i is ih =>
    intro st hrange hlen hcount
    have hi : i < hits.length := hrange i (List.mem_cons_self _ _)
    have hrange' : ∀ j ∈ is, j < hits.length := fun j hj => hrange j (List.mem_cons_of_mem _ hj)
    have hget : hits[i]? = some hits[i] := List.getElem?_eq_getElem hi
    rw [dfs_loop, hget]
    by_cases hc : (st.2.getD i false || !is_neighbor self hit hits[i]) = true
    · simp only [hc, if_true]
      exact ih st hrange' hlen hcount
    · simp only [hc]
      simp only [Bool.or_eq_true, Bool.not_eq_true', not_or, Bool.not_eq_true,
        Bool.not_eq_false] at hc
      obtain ⟨hvis, hnb⟩ := hc
      have hfalse : st.2[i]? = some false := getElem?_false_of_getD (by omega) hvis
      obtain ⟨st1, hrun, I1, N1, hg1, _, hlt, hhead⟩ := hrec i st hlen hfalse hcount
      obtain ⟨st2, I2, N2, hrun2, hg2, hreach2⟩ :=
        ih st1 hrange' (hg1.length_eq.trans hlen) (le_trans hg1.count_le hcount)
      refine ⟨st2, I1 ++ I2, N1 ++ N2, ?_, grows_trans hg1 hg2, ?_⟩
      · simp [hrun, hrun2]
      · intro S hS hsub y hy
        rcases List.mem_append.mp hy with hy | hy
        · rcases hhead _ hget with ⟨_, hnil⟩ | ⟨_, restI, rest, _, hN1, hreach⟩
          · rw [hnil] at hy
            cases hy
          · have hN1S : ∀ x ∈ N1, x ∈ S := fun x hx => hsub x (List.mem_append_left _ hx)
            have hmem : hits[i] ∈ N1 := by rw [hN1]; exact List.mem_cons_self _ _
            refine Relation.ReflTransGen.head ⟨hS, hN1S _ hmem, hnb⟩ ?_
            exact Relation.ReflTransGen.mono (adj_mono hN1S) (hreach y hy)
        · exact hreach2 S hS (fun x hx => hsub x (List.mem_append_right _ hx)) y hy

theorem getElem?_set_true_of_true {v : List Bool} {idx i : Nat} (h : v[i]? = some true) :
    (v.set idx true)[i]? = some true := by
  have hi : i < v.length := (List.getElem?_eq_some.mp h).1
  rw [List.getElem?_set]
  by_cases hii : idx = i
  · subst hii
    simp [hi]
  · simp [hii, h]

theorem getElem?_set_true_cases {v : List Bool} {idx i : Nat}
    (h : (v.set idx true)[i]? = some true) : i = idx ∨ v[i]? = some true := by
  by_cases hii : idx = i
  · exact Or.inl hii.symm
  · rw [List.getElem?_set_ne hii] at h
    exact Or.inr h

theorem dfs_group_spec (self : ImagingTopoCluster) (hits : List ImagingPixel) :
    ∀ depth : Nat, RecOK self hits depth (fun i st => dfs_group self hits depth i st) := by
  intro depth
  induction depth with
  | zero =>
    intro idx st _ hfalse hcount
    have := count_false_set_true st.2 idx hfalse
    omega
  | succ depth ih =>
    intro idx st hlen hfalse hcount
    obtain ⟨group, visits⟩ := st
    simp only at hlen hfalse hcount
    have hidx : idx < visits.length := (List.getElem?_eq_some.mp hfalse).1
    have hidx' : idx < hits.length := by omega
    have hget : hits[idx]? = some hits[idx] := List.getElem?_eq_getElem hidx'
    have hcnt := count_false_set_true visits idx hfalse
    have hset : (visits.set idx true)[idx]? = some true := by
      rw [List.getElem?_set]; simp [hidx]
    simp only [dfs_group, hget]
    by_cases hlow : hits[idx].edep < self.minClusterHitEdep
    · simp only [hlow, if_true]
      refine ⟨_, rfl, [], [], ?_, hset, by simp only; omega, ?_⟩
      · constructor
        · simp
        · rfl
        · exact List.nodup_nil
        · simp
        · simp
        · simp
        · exact fun i h => getElem?_set_true_of_true h
        · simp
        · intro i h
          rcases getElem?_set_true_cases h with h | h
          · subst h
            exact Or.inr (Or.inr ⟨_, hget, hlow⟩)
          · exact Or.inl h
        · simp only; omega
      · intro h hh
        rw [hget] at hh
        cases hh
        exact Or.inl ⟨hlow, rfl⟩
    · simp only [hlow, if_false]
      have hstep : Grows self hits (group, visits) (group ++ [hits[idx]], visits.set idx true)
          [idx] [hits[idx]] := by
        constructor
        · rfl
        · simp [hget]
        · simp
        · simpa using hfalse
        · simpa using not_lt.mp hlow
        · simp
        · exact fun i h => getElem?_set_true_of_true h
        · simpa using hset
        · intro i h
          rcases getElem?_set_true_cases h with h | h
          · exact Or.inr (Or.inl (by simp [h]))
          · exact Or.inl h
        · simp only; omega
      obtain ⟨st', I, N, hrun, hg, hreach⟩ :=
        dfs_loop_spec self hits depth _ ih hits[idx] (List.range hits.length)
          (group ++ [hits[idx]], visits.set idx true)
          (fun i hi => List.mem_range.mp hi) (by simpa using hlen) (by simp only; omega)
      refine ⟨st', hrun, [idx] ++ I, [hits[idx]] ++ N, grows_trans hstep hg, hg.mono idx hset, ?_, ?_⟩
      · have := hg.count_le
        simp only at this ⊢
        omega
      · intro h hh
        rw [hget] at hh
        cases hh
        refine Or.inr ⟨not_lt.mp hlow, I, N, rfl, rfl, ?_⟩
        intro y hy
        rcases List.mem_cons.mp hy with hy | hy
        · rw [hy]
        · exact hreach _ (List.mem_cons_self _ _) (fun x hx => List.mem_cons_of_mem _ hx) y hy

/-- The loop of `dfs_group` gives the same result for a recursive call that returns more often. -/
theorem dfs_loop_mono (self : ImagingTopoCluster) (hits : List ImagingPixel)
    (rec1 rec2 : Nat → DfsState → Option DfsState)
    (hrec : ∀ i st r, rec1 i st = some r → rec2 i st = some r) (hit : ImagingPixel) :
    ∀ (is : List Nat) (st r : DfsState), dfs_loop self hits rec1 hit is st = some r →
      dfs_loop self hits rec2 hit is st = some r := by
  intro is
  induction is with
  | nil => intro st r h; simpa [dfs_loop] using h
  | cons i is ih =>
    intro st r h
    rw [dfs_loop] at h ⊢
    cases hget : hits[i]? with
    | none => rw [hget] at h; cases h
    | some hi =>
      rw [hget] at h
      simp only at h ⊢
      by_cases hc : (st.2.getD i false || !is_neighbor self hit hi) = true
      · rw [if_pos hc] at h ⊢
        exact ih st r h
      · rw [if_neg hc] at h ⊢
        cases h1 : rec1 i st with
        | none => rw [h1] at h; cases h
        | some st1 =>
          rw [h1] at h
          rw [hrec i st st1 h1]
          exact ih st1 r h

/-- A result of `dfs_group` does not depend on the recursion budget: a larger budget
returns the same state. -/
theorem dfs_group_depth_mono (self : ImagingTopoCluster) (hits : List ImagingPixel) :
    ∀ (depth extra idx : Nat) (st r : DfsState), dfs_group self hits depth idx st = some r →
      dfs_group self hits (depth + extra) idx st = some r := by
  intro depth
  induction depth with
  | zero => intro extra idx st r h; simp [dfs_group] at h
  | succ depth ih =>
    intro extra idx st r h
    obtain ⟨group, visits⟩ := st
    rw [show depth + 1 + extra = (depth + extra) + 1 by omega]
    simp only [dfs_group] at h ⊢
    cases hget : hits[idx]? with
    | none => rw [hget] at h; cases h
    | some hi =>
      rw [hget] at h
      simp only at h ⊢
      by_cases hlow : hi.edep < self.minClusterHitEdep
      · rw [if_pos hlow] at h ⊢
        exact h
      · rw [if_neg hlow] at h ⊢
        exact dfs_loop_mono self hits _ _ (fun i st r hr => ih extra i st r hr) _ _ _ _ h

theorem is_neighbor_comm (self : ImagingTopoCluster) (a b : ImagingPixel) :
    is_neighbor self a b = is_neighbor self b a := by
  unfold is_neighbor
  rw [abs_sub_comm a.layerID b.layerID, abs_sub_comm a.local_x b.local_x,
    abs_sub_comm a.local_y b.local_y, abs_sub_comm a.eta b.eta, abs_sub_comm a.phi b.phi,
    show pow2 (a.x - b.x) = pow2 (b.x - a.x) by unfold pow2; ring,
    show pow2 (a.y - b.y) = pow2 (b.y - a.y) by unfold pow2; ring,
    show pow2 (a.z - b.z) = pow2 (b.z - a.z) by unfold pow2; ring]
  by_cases hs : a.sectorID = b.sectorID
  · rw [if_neg (not_not.mpr hs), if_neg (not_not.mpr hs.symm)]
  · rw [if_pos hs, if_pos (fun h => hs h.symm)]

theorem adj_symm (self : ImagingTopoCluster) (S : List ImagingPixel) :
    Symmetric (Adj self S) := by
  intro a b h
  exact ⟨h.2.1, h.1, by rw [is_neighbor_comm]; exact h.2.2⟩

/-- Every member of a list reachable from one root is reachable from every other. -/
theorem connected_of_rooted (self : ImagingTopoCluster) (S : List ImagingPixel)
    (root : ImagingPixel) (h : ∀ y ∈ S, Relation.ReflTransGen (Adj self S) root y) :
    ∀ a ∈ S, ∀ b ∈ S, Relation.ReflTransGen (Adj self S) a b := by
  intro a ha b hb
  exact Relation.ReflTransGen.trans
    (Relation.ReflTransGen.symmetric (adj_symm self S) (h a ha)) (h b hb)

theorem group_loop_spec (self : ImagingTopoCluster) (hits : List ImagingPixel) :
    ∀ (is : List Nat) (st : GroupsState) (G : List (List Nat)),
      (∀ i ∈ is, i < hits.length) → GroupsInv self hits st G →
      ∃ st' G', group_loop self hits is st = some st' ∧ GroupsInv self hits st' G' ∧
        (∀ i : Nat, st.2[i]? = some true → st'.2[i]? = some true) ∧
        ∀ i ∈ is, st'.2[i]? = some true ∨
          ∃ h, hits[i]? = some h ∧ h.edep < self.minClusterCenterEdep := by
  intro is
  induction is with
  | nil =>
    intro st G _ hinv
    exact ⟨st, G, by rw [group_loop], hinv, fun _ h => h, by simp⟩
  | cons i is ih =>
    intro st G hrange hinv
    obtain ⟨groups, visits⟩ := st
    have hi : i < hits.length := hrange i (List.mem_cons_self _ _)
    have hrange' : ∀ j ∈ is, j < hits.length := fun j hj => hrange j (List.mem_cons_of_mem _ hj)
    have hget : hits[i]? = some hits[i] := List.getElem?_eq_getElem hi
    have hlen : visits.length = hits.length := hinv.length_eq
    simp only [group_loop, hget]
    by_cases hc : (visits.getD i false || decide (hits[i].edep < self.minClusterCenterEdep)) = true
    · simp only [hc, if_true]
      obtain ⟨st', G', hrun, hinv', hmono, hdone⟩ := ih (groups, visits) G hrange' hinv
      refine ⟨st', G', hrun, hinv', hmono, ?_⟩
      intro j hj
      rcases List.mem_cons.mp hj with hj | hj
      · subst hj
        rcases Bool.or_eq_true _ _ ▸ hc with hv | hlow
        · refine Or.inl (hmono j ?_)
          have hjv : j < visits.length := by omega
          rw [List.getD_eq_getElem?_getD, List.getElem?_eq_getElem hjv] at hv
          rw [List.getElem?_eq_getElem hjv]
          simpa using hv
        · exact Or.inr ⟨_, hget, of_decide_eq_true hlow⟩
      · exact hdone j hj
    · simp only [hc]
      simp only [Bool.or_eq_true, decide_eq_true_eq, not_or, Bool.not_eq_true, not_lt] at hc
      obtain ⟨hvis, hseed⟩ := hc
      have hfalse : visits[i]? = some false := getElem?_false_of_getD (by omega) hvis
      obtain ⟨st1, hrun1, I1, N1, hg, hmark, _, hhead⟩ :=
        dfs_group_spec self hits hits.length i ([], visits) hlen hfalse
          (by simp only; rw [← hlen]; exact List.count_le_length _ _)
      have hN1 : st1.1 = N1 := by simpa using hg.group_eq
      have hinv1 : GroupsInv self hits (groups ++ [st1.1], st1.2) (G ++ [I1]) := by
        constructor
        · simp only [List.map_append, List.map_cons, List.map_nil, hinv.at_idx, hN1, hg.at_idx]
        · rw [List.flatten_append, List.nodup_append]
          refine ⟨hinv.nodup, by simpa using hg.nodup, ?_⟩
          intro j hj hj'
          have a := hinv.marked j hj
          have b := hg.fresh j (by simpa using hj')
          simp only at a b
          rw [a] at b
          cases b
        · intro j hj
          rw [List.flatten_append] at hj
          rcases List.mem_append.mp hj with hj | hj
          · exact hg.mono j (hinv.marked j hj)
          · exact hg.marked j (by simpa using hj)
        · exact hg.length_eq.trans hlen
        · intro j hj
          rw [List.flatten_append]
          rcases hg.visited_only j hj with h | h | h
          · rcases hinv.visited_only j h with h | h
            · exact Or.inl (List.mem_append_left _ h)
            · exact Or.inr h
          · exact Or.inl (List.mem_append_right _ (by simpa using h))
          · exact Or.inr h
        · intro g hgm
          rcases List.mem_append.mp hgm with hgm | hgm
          · exact hinv.energetic g hgm
          · rw [List.mem_singleton.mp hgm, hN1]
            exact hg.energetic
        · intro g hgm
          rcases List.mem_append.mp hgm with hgm | hgm
          · exact hinv.connected g hgm
          · rw [List.mem_singleton.mp hgm, hN1]
            rcases hhead _ hget with ⟨_, hnil⟩ | ⟨_, _, _, _, _, hreach⟩
            · rw [hnil]
              intro a ha
              cases ha
            · exact connected_of_rooted self N1 _ hreach
        · intro g hgm
          rcases List.mem_append.mp hgm with hgm | hgm
          · exact hinv.seeded g hgm
          · rw [List.mem_singleton.mp hgm, hN1]
            refine ⟨hits[i], List.getElem_mem _, hseed, ?_⟩
            rcases hhead _ hget with ⟨_, hnil⟩ | ⟨_, _, rest, _, hcons, _⟩
            · rw [hnil]
              intro x hx
              cases hx
            · rw [hcons]
              intro x hx
              simpa using hx.symm
      obtain ⟨st', G', hrun, hinv', hmono, hdone⟩ :=
        ih (groups ++ [st1.1], st1.2) (G ++ [I1]) hrange' hinv1
      refine ⟨st', G', ?_, hinv', fun j hj => hmono j (hg.mono j hj), ?_⟩
      · simp only at hrun1
        simp [hrun1, hrun]
      · intro j hj
        rcases List.mem_cons.mp hj with hj | hj
        · subst hj
          exact Or.inl (hmono j hmark)
        · exact hdone j hj

/-- The facts about the groups built by `execute` that the grouping claims rest on. -/
theorem build_groups_spec (self : ImagingTopoCluster) (hits : List ImagingPixel) :
    ∃ (groups : List (List ImagingPixel)) (idxGroups : List (List Nat)),
      build_groups self hits = some groups ∧
      idxGroups.map (fun I => I.map (fun i => hits[i]?)) = groups.map (fun g => g.map some) ∧
      idxGroups.flatten.Nodup ∧
      (∀ g ∈ groups, ∀ h ∈ g, self.minClusterHitEdep ≤ h.edep) ∧
      (∀ g ∈ groups, ∀ a ∈ g, ∀ b ∈ g, Relation.ReflTransGen (Adj self g) a b) ∧
      (∀ g ∈ groups, ∃ h ∈ hits, self.minClusterCenterEdep ≤ h.edep ∧
        ∀ x, g.head? = some x → x = h) ∧
      ∀ (i : Nat) (h : ImagingPixel), hits[i]? = some h → self.minClusterHitEdep ≤ h.edep →
        self.minClusterCenterEdep ≤ h.edep → i ∈ idxGroups.flatten := by
  have hinit : GroupsInv self hits ([], List.replicate hits.length false) [] := by
    constructor
    · rfl
    · simp
    · simp
    · simp
    · intro i hi
      simp only [List.getElem?_replicate] at hi
      split at hi <;> cases hi
    · simp
    · simp
    · simp
  obtain ⟨st', G', hrun, hinv, _, hdone⟩ :=
    group_loop_spec self hits (List.range hits.length) _ [] (fun i hi => List.mem_range.mp hi) hinit
  refine ⟨st'.1, G', by simp [build_groups, hrun], hinv.at_idx, hinv.nodup, hinv.energetic,
    hinv.connected, hinv.seeded, ?_⟩
  intro i h hget hhit hseed
  have hi : i < hits.length := (List.getElem?_eq_some.mp hget).1
  rcases hdone i (List.mem_range.mpr hi) with hv | ⟨h', hget', hlow⟩
  · rcases hinv.visited_only i hv with hmem | ⟨h', hget', hlow⟩
    · exact hmem
    · rw [hget] at hget'
      cases hget'
      exact absurd hlow (not_lt.mpr hhit)
  · rw [hget] at hget'
    cases hget'
    exact absurd hlow (not_lt.mpr hseed)

/-! ## The post-grouping filter -/

theorem foldl_push_eq (cid : Int) (group : List ImagingPixel) :
    ∀ out : List ImagingPixel,
      group.foldl (fun out hit => out ++ [set_clusterID cid hit]) out
        = out ++ group.map (set_clusterID cid) := by
  induction group with
  | nil => intro out; simp
  | cons h t ih => intro out; simp [ih]

theorem foldl_edep_eq (group : List ImagingPixel) :
    ∀ acc : ℚ, group.foldl (fun acc hit => acc + hit.edep) acc
      = acc + (group.map ImagingPixel.edep).sum := by
  induction group with
  | nil => intro acc; simp
  | cons h t ih => intro acc; simp [ih, add_assoc]

/-- The second loop of `execute` appends, in order, the relabelled hits of exactly the
groups that pass the filter. -/
theorem emit_loop_eq (self : ImagingTopoCluster) (cid : Int) :
    ∀ (groups : List (List ImagingPixel)) (out : List ImagingPixel),
      emit_loop self cid groups out
        = out ++ ((groups.filter (passes_filter self)).map
            (List.map (set_clusterID cid))).flatten := by
  intro groups
  induction groups with
  | nil => intro out; simp [emit_loop]
  | cons g rest ih =>
    intro out
    rw [emit_loop]
    by_cases hn : (g.length : Int) < self.minClusterNhits
    · have hp : passes_filter self g = false := by
        simp only [passes_filter, decide_eq_false_iff_not, not_and]
        intro h
        exact absurd hn (not_lt.mpr h)
      rw [if_pos hn, ih, List.filter_cons_of_neg (by simp [hp])]
    · rw [if_neg hn]
      simp only [foldl_edep_eq, zero_add]
      by_cases he : (g.map ImagingPixel.edep).sum < self.minClusterEdep
      · have hp : passes_filter self g = false := by
          simp only [passes_filter, decide_eq_false_iff_not, not_and]
          intro _
          exact not_le.mpr he
        rw [if_pos he, ih, List.filter_cons_of_neg (by simp [hp])]
      · have hp : passes_filter self g = true := by
          simp only [passes_filter, decide_eq_true_eq]
          exact ⟨not_lt.mp hn, not_lt.mp he⟩
        rw [if_neg he, ih, foldl_push_eq, List.filter_cons_of_pos hp]
        simp

/-- The indices behind the emitted hits: a sublist of the indices behind the groups. -/
theorem emitted_indices (hits : List ImagingPixel) (f : ImagingPixel → ImagingPixel)
    (P : List ImagingPixel → Bool) :
    ∀ (groups : List (List ImagingPixel)) (G : List (List Nat)),
      G.map (fun I => I.map (fun i => hits[i]?)) = groups.map (fun g => g.map some) →
      ∃ E : List Nat, E.Sublist G.flatten ∧
        E.map (fun i => (hits[i]?).map f)
          = (((groups.filter P).map (List.map f)).flatten).map some := by
  intro groups
  induction groups with
  | nil =>
    intro G hG
    refine ⟨[], List.nil_sublist _, by simp⟩
  | cons g rest ih =>
    intro G hG
    cases G with
    | nil => simp at hG
    | cons I G' =>
      simp only [List.map_cons, List.cons.injEq] at hG
      obtain ⟨hI, hG'⟩ := hG
      obtain ⟨E, hsub, hmap⟩ := ih G' hG'
      have hIf : I.map (fun i => (hits[i]?).map f) = (g.map f).map some := by
        have : I.map (fun i => (hits[i]?).map f)
            = (I.map (fun i => hits[i]?)).map (Option.map f) := by
          rw [List.map_map]; rfl
        rw [this, hI, List.map_map, List.map_map]
        rfl
      by_cases hP : P g = true
      · refine ⟨I ++ E, ?_, ?_⟩
        · simpa using List.Sublist.append (List.Sublist.refl I) hsub
        · rw [List.filter_cons_of_pos hP]
          simp only [List.map_append, List.map_cons, List.flatten_cons, hIf, hmap]
      · refine ⟨E, ?_, ?_⟩
        · simpa using (hsub.trans (List.sublist_append_right I G'.flatten))
        · rw [List.filter_cons_of_neg hP]
          exact hmap

/-- The index groups name valid positions of the input. -/
theorem index_lt_of_at_idx (hits : List ImagingPixel) (groups : List (List ImagingPixel))
    (G : List (List Nat))
    (hG : G.map (fun I => I.map (fun i => hits[i]?)) = groups.map (fun g => g.map some)) :
    ∀ i ∈ G.flatten, i < hits.length := by
  intro i hi
  have h1 : hits[i]? ∈ (G.map (fun I => I.map (fun i => hits[i]?))).flatten := by
    obtain ⟨I, hI, hiI⟩ := List.mem_flatten.mp hi
    exact List.mem_flatten.mpr ⟨_, List.mem_map_of_mem _ hI, List.mem_map_of_mem _ hiI⟩
  rw [hG] at h1
  obtain ⟨l, hl, hil⟩ := List.mem_flatten.mp h1
  obtain ⟨g, _, rfl⟩ := List.mem_map.mp hl
  obtain ⟨h, _, hh⟩ := List.mem_map.mp hil
  exact (List.getElem?_eq_some.mp hh.symm).1

/-- A hit whose index is behind some group is a member of a group. -/
theorem mem_group_of_index (hits : List ImagingPixel) (groups : List (List ImagingPixel))
    (G : List (List Nat))
    (hG : G.map (fun I => I.map (fun i => hits[i]?)) = groups.map (fun g => g.map some))
    (i : Nat) (h : ImagingPixel) (hget : hits[i]? = some h) (hi : i ∈ G.flatten) :
    ∃ g ∈ groups, h ∈ g := by
  have h1 : some h ∈ (G.map (fun I => I.map (fun i => hits[i]?))).flatten := by
    obtain ⟨I, hI, hiI⟩ := List.mem_flatten.mp hi
    rw [← hget]
    exact List.mem_flatten.mpr ⟨_, List.mem_map_of_mem _ hI, List.mem_map_of_mem _ hiI⟩
  rw [hG] at h1
  obtain ⟨l, hl, hil⟩ := List.mem_flatten.mp h1
  obtain ⟨g, hg, rfl⟩ := List.mem_map.mp hl
  obtain ⟨h', hh', heq⟩ := List.mem_map.mp hil
  cases heq
  exact ⟨g, hg, hh'⟩

/-- The function `execute` in terms of `build_groups` and the filter. -/
theorem execute_eq (self : ImagingTopoCluster) (hits : List ImagingPixel)
    (groups : List (List ImagingPixel)) (h : build_groups self hits = some groups) :
    execute self hits = some (StatusCode.SUCCESS,
      ((groups.filter (passes_filter self)).map (List.map (set_clusterID 0))).flatten) := by
  simp [execute, h, emit_loop_eq]

/-! ## The claims -/

/-- C1: the groups built by `execute` through `dfs_group` are pairwise disjoint and hold only
input hits. There are index lists `idxGroups`, one per group, such that each group is the
list of input hits at its indices, every index is a valid input position, and no index
occurs twice in the concatenation of all index lists (so no input index is pushed twice,
neither into one group nor into two). The emitted collection consists of the input hits at
a duplicate-free sublist `emitted` of those indices, each relabelled by the `clusterID`
setter. -/
theorem groups_disjoint_from_input (self : ImagingTopoCluster) (hits : List ImagingPixel) :
    ∃ (groups : List (List ImagingPixel)) (idxGroups : List (List Nat))
      (out : List ImagingPixel) (emitted : List Nat),
      build_groups self hits = some groups ∧
      idxGroups.map (fun I => I.map (fun i => hits[i]?)) = groups.map (fun g => g.map some) ∧
      (∀ i ∈ idxGroups.flatten, i < hits.length) ∧
      idxGroups.flatten.Nodup ∧
      (∀ g ∈ groups, ∀ h ∈ g, h ∈ hits) ∧
      execute self hits = some (StatusCode.SUCCESS, out) ∧
      emitted.Sublist idxGroups.flatten ∧ emitted.Nodup ∧
      emitted.map (fun i => (hits[i]?).map (set_clusterID 0)) = out.map some := by
  obtain ⟨groups, G, hb, hG, hnd, _, _, _, _⟩ := build_groups_spec self hits
  obtain ⟨E, hsub, hmap⟩ := emitted_indices hits (set_clusterID 0) (passes_filter self) groups G hG
  refine ⟨groups, G, _, E, hb, hG, index_lt_of_at_idx hits groups G hG, hnd, ?_,
    execute_eq self hits groups hb, hsub, hsub.nodup hnd, hmap⟩
  intro g hg h hh
  have h1 : (some h) ∈ (groups.map (fun g => g.map some)).flatten :=
    List.mem_flatten.mpr ⟨_, List.mem_map_of_mem _ hg, List.mem_map_of_mem _ hh⟩
  rw [← hG] at h1
  obtain ⟨l, hl, hil⟩ := List.mem_flatten.mp h1
  obtain ⟨I, _, rfl⟩ := List.mem_map.mp hl
  obtain ⟨i, _, hi⟩ := List.mem_map.mp hil
  obtain ⟨hlt, heq⟩ := List.getElem?_eq_some.mp hi
  rw [← heq]
  exact List.getElem_mem hlt

/-- C2: inside every group built by the grouper, every hit is reachable from every other
hit through a chain of hits of that group in which consecutive hits are adjacent under
`is_neighbor`. -/
theorem groups_connected (self : ImagingTopoCluster) (hits : List ImagingPixel) :
    ∃ groups : List (List ImagingPixel), build_groups self hits = some groups ∧
      ∀ g ∈ groups, ∀ a ∈ g, ∀ b ∈ g,
        Relation.ReflTransGen (fun x y => x ∈ g ∧ y ∈ g ∧ is_neighbor self x y = true) a b := by
  obtain ⟨groups, _, hb, _, _, _, hconn, _, _⟩ := build_groups_spec self hits
  exact ⟨groups, hb, hconn⟩

/-- C3, as stated, fails: with seed threshold 2 above the participation threshold 0, the
single input hit of energy 1 meets the participation threshold, yet no group is built, so
the hit belongs to no group. -/
theorem coverage_fails_below_seed :
    hit_origin ∈ [hit_origin] ∧ cfg_seed2.minClusterHitEdep ≤ hit_origin.edep ∧
      ∃ groups : List (List ImagingPixel), build_groups cfg_seed2 [hit_origin] = some groups ∧
        ¬ ∃ g ∈ groups, hit_origin ∈ g :=
  ⟨by simp, by decide, [], by decide, by simp⟩

/-- C4: `is_neighbor` is symmetric in its two hits, for every configuration. -/
theorem is_neighbor_symmetric (self : ImagingTopoCluster) (a b : ImagingPixel) :
    is_neighbor self a b = is_neighbor self b a :=
  is_neighbor_comm self a b

/-- C5: for every input and every threshold configuration, no hit with energy below
`minClusterHitEdep` is in any group, nor in the emitted output collection. -/
theorem no_hit_below_participation (self : ImagingTopoCluster) (hits : List ImagingPixel) :
    ∃ (groups : List (List ImagingPixel)) (out : List ImagingPixel),
      build_groups self hits = some groups ∧
      execute self hits = some (StatusCode.SUCCESS, out) ∧
      (∀ g ∈ groups, ∀ h ∈ g, ¬ h.edep < self.minClusterHitEdep) ∧
      ∀ h ∈ out, ¬ h.edep < self.minClusterHitEdep := by
  obtain ⟨groups, _, hb, _, _, hen, _, _, _⟩ := build_groups_spec self hits
  refine ⟨groups, _, hb, execute_eq self hits groups hb,
    fun g hg h hh => not_lt.mpr (hen g hg h hh), ?_⟩
  intro h hh
  obtain ⟨l, hl, hhl⟩ := List.mem_flatten.mp hh
  obtain ⟨g, hg, rfl⟩ := List.mem_map.mp hl
  obtain ⟨h', hh', rfl⟩ := List.mem_map.mp hhl
  exact not_lt.mpr (hen g (List.mem_of_mem_filter hg) h' hh')

/-- C6: for two hits of different `sectorID`, `is_neighbor` holds exactly when the Euclidean
distance between their global positions is at most `sectorDist`; nothing else about the
hits enters. -/
theorem is_neighbor_different_sector (self : ImagingTopoCluster) (h1 h2 : ImagingPixel)
    (hs : h1.sectorID ≠ h2.sectorID) :
    is_neighbor self h1 h2 = true ↔
      Real.sqrt (((h1.x : ℝ) - h2.x) ^ 2 + ((h1.y : ℝ) - h2.y) ^ 2 + ((h1.z : ℝ) - h2.z) ^ 2)
        ≤ (self.sectorDist : ℝ) := by
  unfold is_neighbor
  rw [if_pos hs, sqrt_le_iff]
  simp only [pow2, Rat.cast_add, Rat.cast_mul, Rat.cast_sub, pow_two]

/-- Witness for C6: a hit of sector 0 and a hit of sector 1. -/
theorem is_neighbor_different_sector_witness :
    hit_origin.sectorID ≠ hit_far_sector.sectorID ∧
    (is_neighbor cfg_open hit_origin hit_far_sector = true ↔
      Real.sqrt (((hit_origin.x : ℝ) - hit_far_sector.x) ^ 2
          + ((hit_origin.y : ℝ) - hit_far_sector.y) ^ 2
          + ((hit_origin.z : ℝ) - hit_far_sector.z) ^ 2)
        ≤ (cfg_open.sectorDist : ℝ)) :=
  ⟨by decide, is_neighbor_different_sector cfg_open hit_origin hit_far_sector (by decide)⟩

/-- C7: for two hits of the same `sectorID` and the same `layerID`, `is_neighbor` holds
exactly when `|Δlocal_x| ≤ localDistXY[0]` and `|Δlocal_y| ≤ localDistXY[1]`, two separate
per-axis gates; nothing else about the hits enters. -/
theorem is_neighbor_same_layer (self : ImagingTopoCluster) (h1 h2 : ImagingPixel)
    (hs : h1.sectorID = h2.sectorID) (hl : h1.layerID = h2.layerID) :
    is_neighbor self h1 h2 = true ↔
      |h1.local_x - h2.local_x| ≤ self.localDistXY.1 ∧
      |h1.local_y - h2.local_y| ≤ self.localDistXY.2 := by
  unfold is_neighbor
  simp [hs, hl]

/-- Witness for C7: two hits of sector 0, layer 0. -/
theorem is_neighbor_same_layer_witness :
    hit_origin.sectorID = hit_same_layer.sectorID ∧
    hit_origin.layerID = hit_same_layer.layerID ∧
    (is_neighbor cfg_open hit_origin hit_same_layer = true ↔
      |hit_origin.local_x - hit_same_layer.local_x| ≤ cfg_open.localDistXY.1 ∧
      |hit_origin.local_y - hit_same_layer.local_y| ≤ cfg_open.localDistXY.2) :=
  ⟨by decide, by decide,
    is_neighbor_same_layer cfg_open hit_origin hit_same_layer (by decide) (by decide)⟩

/-- C8: for two hits of the same `sectorID` and different `layerID`, `is_neighbor` holds
exactly when `|layerDiff| ≤ neighbourLayersRange`, `|Δeta| ≤ layerDistEtaPhi[0]` and
`|Δphi| ≤ layerDistEtaPhi[1]`; in particular it is false whenever
`|layerDiff| > neighbourLayersRange`, whatever `Δeta` and `Δphi` are. -/
theorem is_neighbor_other_layer (self : ImagingTopoCluster) (h1 h2 : ImagingPixel)
    (hs : h1.sectorID = h2.sectorID) (hl : h1.layerID ≠ h2.layerID) :
    (is_neighbor self h1 h2 = true ↔
      |h1.layerID - h2.layerID| ≤ self.neighbourLayersRange ∧
      |h1.eta - h2.eta| ≤ self.layerDistEtaPhi.1 ∧
      |h1.phi - h2.phi| ≤ self.layerDistEtaPhi.2) ∧
    (self.neighbourLayersRange < |h1.layerID - h2.layerID| →
      is_neighbor self h1 h2 = false) := by
  have hne : ¬ (|h1.layerID - h2.layerID| = 0) := by
    rw [abs_eq_zero, sub_eq_zero]; exact hl
  unfold is_neighbor
  simp only [ne_eq, hs, not_true_eq_false, if_false, hne]
  constructor
  · by_cases hr : |h1.layerID - h2.layerID| ≤ self.neighbourLayersRange
    · simp [hr]
    · simp [hr]
  · intro hlt
    simp [not_le.mpr hlt]

/-- Witness for C8 (scenario C): layers 0 and 2 with `neighbourLayersRange = 1` and
`Δeta = Δphi = 0` are not neighbours. -/
theorem is_neighbor_other_layer_witness :
    hit_origin.sectorID = hit_layer2.sectorID ∧ hit_origin.layerID ≠ hit_layer2.layerID ∧
    cfg_open.neighbourLayersRange < |hit_origin.layerID - hit_layer2.layerID| ∧
    hit_origin.eta - hit_layer2.eta = 0 ∧ hit_origin.phi - hit_layer2.phi = 0 ∧
    is_neighbor cfg_open hit_origin hit_layer2 = false :=
  ⟨by decide, by decide, by decide, by simp [hit_origin, hit_layer2],
    by simp [hit_origin, hit_layer2],
    (is_neighbor_other_layer cfg_open hit_origin hit_layer2 (by decide) (by decide)).2
      (by decide)⟩

/-- C9: the post-grouping filter. `execute` returns `SUCCESS`, and its output is the
concatenation, in group order, of the hits (relabelled by the `clusterID` setter) of exactly
those built groups whose hit count is at least `minClusterNhits` and whose summed energy is
at least `minClusterEdep`; the other groups contribute nothing. -/
theorem execute_emits_filtered_groups (self : ImagingTopoCluster) (hits : List ImagingPixel) :
    ∃ groups : List (List ImagingPixel), build_groups self hits = some groups ∧
      execute self hits = some (StatusCode.SUCCESS,
        ((groups.filter (fun g => decide (self.minClusterNhits ≤ (g.length : Int) ∧
            self.minClusterEdep ≤ (g.map ImagingPixel.edep).sum))).map
          (List.map (set_clusterID 0))).flatten) := by
  obtain ⟨groups, _, hb, _⟩ := build_groups_spec self hits
  exact ⟨groups, hb, execute_eq self hits groups hb⟩

/-- C10: every group is started from an input hit with energy at least
`minClusterCenterEdep`, and that hit is the first hit of the group when the group is not
empty; hence when no input hit reaches the seed threshold there are no groups and the
output is empty. -/
theorem groups_start_at_seed (self : ImagingTopoCluster) (hits : List ImagingPixel) :
    ∃ groups : List (List ImagingPixel), build_groups self hits = some groups ∧
      (∀ g ∈ groups, ∃ seed ∈ hits, self.minClusterCenterEdep ≤ seed.edep ∧
        ∀ first, g.head? = some first → first = seed) ∧
      (∀ g ∈ groups, ∀ first, g.head? = some first → self.minClusterCenterEdep ≤ first.edep) ∧
      ((∀ h ∈ hits, h.edep < self.minClusterCenterEdep) →
        groups = [] ∧ execute self hits = some (StatusCode.SUCCESS, [])) := by
  obtain ⟨groups, _, hb, _, _, _, _, hseed, _⟩ := build_groups_spec self hits
  refine ⟨groups, hb, hseed, ?_, ?_⟩
  · intro g hg first hfirst
    obtain ⟨seed, _, hle, hhead⟩ := hseed g hg
    rw [hhead first hfirst]
    exact hle
  · intro hall
    have hnil : groups = [] := by
      cases groups with
      | nil => rfl
      | cons g rest =>
        obtain ⟨seed, hmem, hle, _⟩ := hseed g (List.mem_cons_self _ _)
        exact absurd (hall seed hmem) (not_lt.mpr hle)
    subst hnil
    exact ⟨rfl, by rw [execute_eq self hits [] hb]; rfl⟩

/-- Witness for C10 (scenario B): a single hit of energy 1 below both thresholds (2 and 2)
yields no group and an empty output. -/
theorem groups_start_at_seed_witness :
    (∀ h ∈ [hit_origin], h.edep < cfg_both2.minClusterCenterEdep) ∧
    build_groups cfg_both2 [hit_origin] = some [] ∧
    execute cfg_both2 [hit_origin] = some (StatusCode.SUCCESS, []) := by
  have hall : ∀ h ∈ [hit_origin], h.edep < cfg_both2.minClusterCenterEdep := by decide
  obtain ⟨groups, hb, _, _, hzero⟩ := groups_start_at_seed cfg_both2 [hit_origin]
  obtain ⟨hnil, hex⟩ := hzero hall
  exact ⟨hall, by rw [hb, hnil], hex⟩

/-! ## Cluster reconstruction: the loops -/

/-- The total energy accumulated by the first loop of `reconstruct`. -/
theorem foldl_energy_step_totalE (lib : MathFunctions) (l : List (CalorimeterHit × ℚ)) :
    ∀ st : EnergySums, (l.foldl (energy_step lib) st).totalE
      = st.totalE + (l.map (fun hw => hw.1.energy * hw.2)).sum := by
  induction l with
  | nil => intro st; simp
  | cons hw l ih => intro st; simp [ih, energy_step, add_assoc]

/-- The first loop of `reconstruct` computes `total_energy`. -/
theorem energy_sums_totalE (lib : MathFunctions) (pcl : ProtoCluster) :
    (energy_sums lib pcl).totalE = total_energy pcl := by
  simp [energy_sums, total_energy, foldl_energy_step_totalE]

/-- The total weight and the weighted position sum accumulated by the second loop. -/
theorem foldl_cog_step (self : ClusterRecoCoG) (tE : ℚ) (l : List (CalorimeterHit × ℚ)) :
    ∀ st : ℚ × Vector3f, l.foldl (cog_step self tE) st
      = (st.1 + (l.map (cog_weight self tE)).sum,
         { x := st.2.x + (l.map (fun hw => hw.1.position.x * cog_weight self tE hw)).sum,
           y := st.2.y + (l.map (fun hw => hw.1.position.y * cog_weight self tE hw)).sum,
           z := st.2.z + (l.map (fun hw => hw.1.position.z * cog_weight self tE hw)).sum }) := by
  induction l with
  | nil => intro st; simp
  | cons hw l ih =>
    intro st
    simp [ih, cog_step, Vector3f.add, Vector3f.scale, add_assoc]

/-- The squared distances accumulated by the radius loop. -/
theorem foldl_radius (P : Vector3f) (hits : List CalorimeterHit) :
    ∀ acc : ℚ, hits.foldl
        (fun radius hit =>
          let delta : Vector3f := P.sub hit.position
          radius + delta.dot delta) acc
      = acc + (hits.map (fun hit => (P.x - hit.position.x) ^ 2 + (P.y - hit.position.y) ^ 2
          + (P.z - hit.position.z) ^ 2)).sum := by
  induction hits with
  | nil => intro acc; simp
  | cons h t ih =>
    intro acc
    rw [List.foldl_cons, ih]
    simp only [List.map_cons, List.sum_cons, Vector3f.sub, Vector3f.dot]
    ring

/-- The members that `reconstruct` writes before the division `v / tw`. -/
theorem reconstruct_cluster_head (lib : MathFunctions) (self : ClusterRecoCoG)
    (pcl : ProtoCluster) (hit0 : CalorimeterHit) (rest : List CalorimeterHit)
    (hhits : pcl.hits = hit0 :: rest) :
    ( ClusterRecoCoG.reconstruct lib self pcl).cluster.nhits = pcl.hits.length ∧
    ( ClusterRecoCoG.reconstruct lib self pcl).cluster.energy
      = total_energy pcl / self.m_sampFrac ∧
    ( ClusterRecoCoG.reconstruct lib self pcl).cluster.energyError = 0 ∧
    ( ClusterRecoCoG.reconstruct lib self pcl).cluster.time = hit0.time ∧
    ( ClusterRecoCoG.reconstruct lib self pcl).cluster.timeError = hit0.timeError := by
  unfold ClusterRecoCoG.reconstruct
  simp only [hhits, energy_sums_totalE]
  split
  · split <;> simp [Reconstructed.cluster]
  · split <;> simp [Reconstructed.cluster]

/-- The outcome of `reconstruct` for a non-empty proto-cluster of non-zero total weight. -/
theorem reconstruct_done (lib : MathFunctions) (self : ClusterRecoCoG)
    (pcl : ProtoCluster) (hne : pcl.hits ≠ []) (htw : (position_weights self pcl).sum ≠ 0) :
    ∃ cl : Cluster, ClusterRecoCoG.reconstruct lib self pcl = Reconstructed.done cl ∧
      cl.position = constrain_eta lib self (energy_sums lib pcl) (center_of_gravity self pcl) ∧
      cl.positionError = { xx := 0, yy := 0, zz := 0, xy := 0, xz := 0, yz := 0 } ∧
      cl.intrinsicTheta = lib.anglePolar cl.position ∧
      cl.intrinsicPhi = lib.angleAzimuthal cl.position ∧
      cl.shapeParameters = if 1 < pcl.hits.length then
          [lib.sqrt (squared_distance_sum pcl cl.position / ((pcl.hits.length : ℚ) - 1)), 0]
        else [] := by
  obtain ⟨hit0, rest, hhits⟩ := List.exists_cons_of_ne_nil hne
  have hdiv : ∀ P : Vector3f, P.div (position_weights self pcl).sum
      = some { x := P.x / (position_weights self pcl).sum,
               y := P.y / (position_weights self pcl).sum,
               z := P.z / (position_weights self pcl).sum } := by
    intro P
    simp [Vector3f.div, htw]
  unfold ClusterRecoCoG.reconstruct
  simp only [hhits, energy_sums_totalE, foldl_cog_step, Cluster.empty, zero_add]
  rw [← hhits]
  have hw : ((pcl.hits.zip pcl.weights).map (cog_weight self (total_energy pcl))).sum
      = (position_weights self pcl).sum := rfl
  rw [hw, hdiv]
  simp only
  by_cases hn : 1 < pcl.hits.length
  · refine ⟨_, by rw [if_pos (by simpa using hn)], ?_, rfl, rfl, rfl, ?_⟩
    · rfl
    · simp only [hn, if_true, foldl_radius, List.nil_append, zero_add, squared_distance_sum]
      rw [one_div, inv_mul_eq_div]
  · refine ⟨_, by rw [if_neg (by simpa using hn)], ?_, rfl, rfl, rfl, ?_⟩
    · rfl
    · simp [hn]

/-- For a non-empty proto-cluster of zero total weight, `reconstruct` divides by zero and
goes on: the position and the intrinsic angles are not finite numbers of the model, and
for more than one hit two shape parameters are appended, the second of which is 0. -/
theorem reconstruct_division_by_zero (lib : MathFunctions) (self : ClusterRecoCoG)
    (pcl : ProtoCluster) (hit0 : CalorimeterHit) (rest : List CalorimeterHit)
    (hhits : pcl.hits = hit0 :: rest) (htw : (position_weights self pcl).sum = 0) :
    ClusterRecoCoG.reconstruct lib self pcl = Reconstructed.division_by_zero
      { Cluster.empty with nhits := pcl.hits.length,
                           energy := total_energy pcl / self.m_sampFrac, energyError := 0,
                           time := hit0.time, timeError := hit0.timeError }
      { position := none, intrinsicTheta := none, intrinsicPhi := none,
        shapeParameters := if 1 < pcl.hits.length then [none, some 0] else [] } := by
  unfold ClusterRecoCoG.reconstruct
  simp only [hhits, energy_sums_totalE, foldl_cog_step, Cluster.empty, zero_add]
  rw [← hhits]
  have hw : ((pcl.hits.zip pcl.weights).map (cog_weight self (total_energy pcl))).sum
      = (position_weights self pcl).sum := rfl
  rw [hw, htw]
  by_cases hn : 1 < pcl.hits.length
  · simp [Vector3f.div, hn]
  · simp [Vector3f.div, hn]

/-- The position, the intrinsic angles and the shape parameters of the cluster that
`reconstruct` returns for a non-empty proto-cluster, whatever the total weight is. -/
theorem reconstruct_members (lib : MathFunctions) (self : ClusterRecoCoG)
    (pcl : ProtoCluster) (hne : pcl.hits ≠ []) :
    ( ClusterRecoCoG.reconstruct lib self pcl).members.position
      = (weighted_centroid self pcl).map (constrain_eta lib self (energy_sums lib pcl)) ∧
    ( ClusterRecoCoG.reconstruct lib self pcl).members.intrinsicTheta
      = ( ClusterRecoCoG.reconstruct lib self pcl).members.position.map lib.anglePolar ∧
    ( ClusterRecoCoG.reconstruct lib self pcl).members.intrinsicPhi
      = ( ClusterRecoCoG.reconstruct lib self pcl).members.position.map lib.angleAzimuthal ∧
    ( ClusterRecoCoG.reconstruct lib self pcl).members.shapeParameters
      = if 1 < pcl.hits.length then
          [( ClusterRecoCoG.reconstruct lib self pcl).members.position.map
              (fun P => lib.sqrt (squared_distance_sum pcl P / ((pcl.hits.length : ℚ) - 1))),
            some 0]
        else [] := by
  by_cases htw : (position_weights self pcl).sum = 0
  · obtain ⟨hit0, rest, hhits⟩ := List.exists_cons_of_ne_nil hne
    rw [reconstruct_division_by_zero lib self pcl hit0 rest hhits htw]
    simp [Reconstructed.members, weighted_centroid, htw]
  · obtain ⟨cl, hrun, hpos, _, htheta, hphi, hshape⟩ := reconstruct_done lib self pcl hne htw
    rw [hrun]
    simp only [Reconstructed.members, weighted_centroid, htw, if_false, Option.map_some']
    refine ⟨by rw [hpos], by rw [htheta], by rw [hphi], ?_⟩
    rw [hshape]
    split <;> rfl

/-- With the clamp disabled the position is left as it is. -/
theorem constrain_eta_off (lib : MathFunctions) (self : ClusterRecoCoG) (sums : EnergySums)
    (P : Vector3f) (hoff : self.m_enableEtaBounds = false) :
    constrain_eta lib self sums P = P := by
  simp [constrain_eta, hoff]

/-- A position whose eta lies within the bounds is left as it is. -/
theorem constrain_eta_inside (lib : MathFunctions) (self : ClusterRecoCoG) (sums : EnergySums)
    (P : Vector3f) (hmax : ¬ lib.eta P > sums.maxHitEta) (hmin : ¬ lib.eta P < sums.minHitEta) :
    constrain_eta lib self sums P = P := by
  simp [constrain_eta, hmax, hmin]

/-- A position whose eta exceeds `maxHitEta` is re-projected to `maxHitEta`. -/
theorem constrain_eta_overflow (lib : MathFunctions) (self : ClusterRecoCoG)
    (sums : EnergySums) (P : Vector3f) (hon : self.m_enableEtaBounds = true)
    (hmax : lib.eta P > sums.maxHitEta) :
    constrain_eta lib self sums P
      = lib.sphericalToVector (lib.magnitude P) (lib.etaToAngle sums.maxHitEta)
          (lib.angleAzimuthal P) := by
  simp [constrain_eta, hon, hmax]

/-- A position whose eta is below `minHitEta`, and not above `maxHitEta`, is re-projected
to `minHitEta`. -/
theorem constrain_eta_underflow (lib : MathFunctions) (self : ClusterRecoCoG)
    (sums : EnergySums) (P : Vector3f) (hon : self.m_enableEtaBounds = true)
    (hmax : ¬ lib.eta P > sums.maxHitEta) (hmin : lib.eta P < sums.minHitEta) :
    constrain_eta lib self sums P
      = lib.sphericalToVector (lib.magnitude P) (lib.etaToAngle sums.minHitEta)
          (lib.angleAzimuthal P) := by
  simp [constrain_eta, hon, hmax, hmin]

/-- The bound `maxHitEta` of the first loop never falls below its start value. -/
theorem foldl_energy_step_maxHitEta_ge (lib : MathFunctions)
    (l : List (CalorimeterHit × ℚ)) :
    ∀ st : EnergySums, st.maxHitEta ≤ (l.foldl (energy_step lib) st).maxHitEta := by
  induction l with
  | nil => intro st; simp
  | cons hw l ih =>
    intro st
    refine le_trans ?_ (ih _)
    simp only [energy_step]
    split
    · exact le_of_lt (by assumption)
    · exact le_rfl

/-- The bound `maxHitEta` computed by `reconstruct` is at least
`numeric_limits<float>::min()`, a positive number, whatever the hits are. -/
theorem energy_sums_maxHitEta_ge (lib : MathFunctions) (pcl : ProtoCluster) :
    FLT_MIN ≤ (energy_sums lib pcl).maxHitEta :=
  foldl_energy_step_maxHitEta_ge lib _ _

/-- With `constWeight` every position weight is 1. -/
theorem position_weights_const (self : ClusterRecoCoG) (pcl : ProtoCluster)
    (hwf : self.weightFunc = constWeight) :
    (position_weights self pcl).sum = (pcl.hits.length : ℚ) := by
  have h1 : (fun hw : CalorimeterHit × ℚ =>
        self.weightFunc (hw.1.energy * hw.2) (total_energy pcl) self.m_logWeightBase 0)
      = fun _ => (1 : ℚ) := by
    funext hw
    simp [hwf, constWeight]
  rw [position_weights, h1]
  simp [pcl.weights_size]

/-- With `constWeight` the weighted coordinate sums are the plain coordinate sums. -/
theorem weighted_coordinate_sum_const (self : ClusterRecoCoG) (pcl : ProtoCluster)
    (hwf : self.weightFunc = constWeight) (c : Vector3f → ℚ) :
    weighted_coordinate_sum self pcl c = (pcl.hits.map (fun hit => c hit.position)).sum := by
  have h1 : (pcl.hits.zip pcl.weights).map
        (fun hw => c hw.1.position
          * self.weightFunc (hw.1.energy * hw.2) (total_energy pcl) self.m_logWeightBase 0)
      = ((pcl.hits.zip pcl.weights).map Prod.fst).map (fun hit => c hit.position) := by
    simp [hwf, constWeight]
  rw [weighted_coordinate_sum, h1, List.map_fst_zip]
  exact le_of_eq pcl.weights_size.symm

/-- With `constWeight` the weighted centroid is the unweighted mean. -/
theorem center_of_gravity_const (self : ClusterRecoCoG) (pcl : ProtoCluster)
    (hwf : self.weightFunc = constWeight) :
    center_of_gravity self pcl = mean_position pcl := by
  simp only [center_of_gravity, mean_position, position_weights_const self pcl hwf,
    weighted_coordinate_sum_const self pcl hwf]

/-- The registry lookup, case by case. -/
theorem weightMethods_lookup (log : ℚ → ℚ) (ew : String) :
    (weightMethods log).lookup ew
      = if ew = "none" then some constWeight
        else if ew = "linear" then some linearWeight
        else if ew = "log" then some (logWeight log) else none := by
  simp only [weightMethods, List.lookup]
  by_cases h1 : ew = "none"
  · simp [h1]
  · by_cases h2 : ew = "linear"
    · simp [h2]
    · by_cases h3 : ew = "log"
      · simp [h3]
      · have e1 : (ew == "none") = false := by simpa using h1
        have e2 : (ew == "linear") = false := by simpa using h2
        have e3 : (ew == "log") = false := by simpa using h3
        simp [h1, h2, h3, e1, e2, e3]

/-- The bound `maxHitEta` keeps its start value when no hit has a larger eta. -/
theorem foldl_energy_step_maxHitEta_eq (lib : MathFunctions)
    (l : List (CalorimeterHit × ℚ)) :
    ∀ st : EnergySums, (∀ hw ∈ l, lib.to_float (lib.eta hw.1.position) ≤ st.maxHitEta) →
      (l.foldl (energy_step lib) st).maxHitEta = st.maxHitEta := by
  induction l with
  | nil => intro st _; rfl
  | cons hw l ih =>
    intro st hall
    have hhw : ¬ lib.to_float (lib.eta hw.1.position) > st.maxHitEta :=
      not_lt.mpr (hall hw (List.mem_cons_self _ _))
    have hstep : (energy_step lib st hw).maxHitEta = st.maxHitEta := by
      simp [energy_step, hhw]
    rw [List.foldl_cons, ih, hstep]
    intro hw' hmem
    rw [hstep]
    exact hall hw' (List.mem_cons_of_mem _ hmem)

/-- C11: `ImagingTopoCluster::initialize` returns `FAILURE` whenever `localDistXY` or
`layerDistEtaPhi` does not hold exactly 2 values (and when the base-class `initialize`
failed), and returns `SUCCESS` exactly when the base-class `initialize` succeeded and both
hold exactly 2 values. -/
theorem initialize_checks_distance_vectors (units : Units) (base : StatusCode)
    (props : ImagingTopoClusterProperties) :
    (( ImagingTopoCluster.initialize units base props).1 = StatusCode.FAILURE ↔
      base = StatusCode.FAILURE ∨ props.u_localDistXY.length ≠ 2 ∨
        props.u_layerDistEtaPhi.length ≠ 2) ∧
    (( ImagingTopoCluster.initialize units base props).1 = StatusCode.SUCCESS ↔
      base = StatusCode.SUCCESS ∧ props.u_localDistXY.length = 2 ∧
        props.u_layerDistEtaPhi.length = 2) := by
  unfold ImagingTopoCluster.initialize
  cases base <;>
    by_cases h1 : props.u_localDistXY.length = 2 <;>
    by_cases h2 : props.u_layerDistEtaPhi.length = 2 <;>
    simp [h1, h2]

/-- C12: for every non-empty proto-cluster the reconstructed cluster has energy
`Σ_i(hit_i.energy × weight_i) / samplingFraction` and `nhits` equal to the number of input
hits. -/
theorem reconstruct_energy_and_nhits (lib : MathFunctions) (self : ClusterRecoCoG)
    (pcl : ProtoCluster) (hne : pcl.hits ≠ []) :
    ( ClusterRecoCoG.reconstruct lib self pcl).cluster.energy
      = ((pcl.hits.zip pcl.weights).map (fun hw => hw.1.energy * hw.2)).sum
          / self.m_sampFrac ∧
    ( ClusterRecoCoG.reconstruct lib self pcl).cluster.nhits = pcl.hits.length := by
  obtain ⟨hit0, rest, hhits⟩ := List.exists_cons_of_ne_nil hne
  obtain ⟨hn, he, _⟩ := reconstruct_cluster_head lib self pcl hit0 rest hhits
  exact ⟨he, hn⟩

/-- Witness for C12 (scenario A): two hits of energy 1 with weight 1 and
`samplingFraction = 1` give energy 2 and 2 hits. -/
theorem reconstruct_energy_and_nhits_witness :
    pcl_pair.hits ≠ [] ∧
    ( ClusterRecoCoG.reconstruct stand_in reco_none pcl_pair).cluster.energy = 2 ∧
    ( ClusterRecoCoG.reconstruct stand_in reco_none pcl_pair).cluster.nhits = 2 := by
  have h := reconstruct_energy_and_nhits stand_in reco_none pcl_pair (by decide)
  refine ⟨by decide, ?_, h.2⟩
  rw [h.1]
  with_unfolding_all decide

/-- C13: for every non-empty proto-cluster whose total weight `Σ w_i` is non-zero, with the
eta clamp disabled, `reconstruct` returns a cluster whose position is
`Σ_i(hit_i.position × w_i) / Σ_i(w_i)`, coordinate by coordinate, where `w_i` is the
selected weighting function `weightFunc` applied to `hit_i.energy × weight_i`, to the sum
`Σ_j(hit_j.energy × weight_j)`, to `logWeightBase` and to module type 0. -/
theorem reconstruct_position_is_center_of_gravity (lib : MathFunctions)
    (self : ClusterRecoCoG) (pcl : ProtoCluster) (hne : pcl.hits ≠ [])
    (htw : ((pcl.hits.zip pcl.weights).map (fun hw =>
        self.weightFunc (hw.1.energy * hw.2)
          ((pcl.hits.zip pcl.weights).map (fun hw => hw.1.energy * hw.2)).sum
          self.m_logWeightBase 0)).sum ≠ 0)
    (hoff : self.m_enableEtaBounds = false) :
    ∃ cl : Cluster, ClusterRecoCoG.reconstruct lib self pcl = Reconstructed.done cl ∧
      cl.position.x
        = ((pcl.hits.zip pcl.weights).map (fun hw => hw.1.position.x *
            self.weightFunc (hw.1.energy * hw.2)
              ((pcl.hits.zip pcl.weights).map (fun hw => hw.1.energy * hw.2)).sum
              self.m_logWeightBase 0)).sum
          / ((pcl.hits.zip pcl.weights).map (fun hw =>
            self.weightFunc (hw.1.energy * hw.2)
              ((pcl.hits.zip pcl.weights).map (fun hw => hw.1.energy * hw.2)).sum
              self.m_logWeightBase 0)).sum ∧
      cl.position.y
        = ((pcl.hits.zip pcl.weights).map (fun hw => hw.1.position.y *
            self.weightFunc (hw.1.energy * hw.2)
              ((pcl.hits.zip pcl.weights).map (fun hw => hw.1.energy * hw.2)).sum
              self.m_logWeightBase 0)).sum
          / ((pcl.hits.zip pcl.weights).map (fun hw =>
            self.weightFunc (hw.1.energy * hw.2)
              ((pcl.hits.zip pcl.weights).map (fun hw => hw.1.energy * hw.2)).sum
              self.m_logWeightBase 0)).sum ∧
      cl.position.z
        = ((pcl.hits.zip pcl.weights).map (fun hw => hw.1.position.z *
            self.weightFunc (hw.1.energy * hw.2)
              ((pcl.hits.zip pcl.weights).map (fun hw => hw.1.energy * hw.2)).sum
              self.m_logWeightBase 0)).sum
          / ((pcl.hits.zip pcl.weights).map (fun hw =>
            self.weightFunc (hw.1.energy * hw.2)
              ((pcl.hits.zip pcl.weights).map (fun hw => hw.1.energy * hw.2)).sum
              self.m_logWeightBase 0)).sum := by
  obtain ⟨cl, hrun, hpos, _⟩ := reconstruct_done lib self pcl hne htw
  rw [constrain_eta_off lib self _ _ hoff] at hpos
  refine ⟨cl, hrun, ?_, ?_, ?_⟩ <;> rw [hpos] <;> rfl

/-- Witness for C13: two hits of energies 1 and 3 at `x = 1` and `x = 2` with linear
weighting give the position `((1·1 + 2·3) / (1 + 3), 0, 1) = (7/4, 0, 1)`, and not the
midpoint. -/
theorem reconstruct_position_is_center_of_gravity_witness :
    pcl_unequal.hits ≠ [] ∧ reco_linear.weightFunc = linearWeight ∧
    reco_linear.m_enableEtaBounds = false ∧
    ∃ cl : Cluster,
      ClusterRecoCoG.reconstruct stand_in reco_linear pcl_unequal = Reconstructed.done cl ∧
      cl.position.x = 7 / 4 ∧ cl.position.y = 0 ∧ cl.position.z = 1 := by
  obtain ⟨cl, hrun, hx, hy, hz⟩ :=
    reconstruct_position_is_center_of_gravity stand_in reco_linear pcl_unequal (by decide)
      (by with_unfolding_all decide) rfl
  refine ⟨by decide, rfl, rfl, cl, hrun, ?_, ?_, ?_⟩
  · rw [hx]; with_unfolding_all decide
  · rw [hy]; with_unfolding_all decide
  · rw [hz]; with_unfolding_all decide

/-- C14, the code at a failing input: for one hit of energy 0 with linear weighting the
total weight is zero, and `reconstruct` evaluates the division `v / tw` by zero instead of
skipping it; the position is not left at the zero vector: it is not a finite vector, and
neither are the intrinsic angles computed from it. -/
theorem reconstruct_divides_by_zero_weight :
    pcl_zero_energy.hits ≠ [] ∧ (position_weights reco_linear pcl_zero_energy).sum = 0 ∧
    ClusterRecoCoG.reconstruct stand_in reco_linear pcl_zero_energy
      = Reconstructed.division_by_zero
          { Cluster.empty with nhits := 1, time := 5, timeError := 1 }
          { position := none, intrinsicTheta := none, intrinsicPhi := none,
            shapeParameters := [] } :=
  ⟨by decide, by with_unfolding_all decide, by with_unfolding_all decide⟩

/-- C15: for a proto-cluster with zero hits `reconstruct` returns the default cluster:
`nhits = 0` and every other member at its zero value, with no shape parameters. -/
theorem reconstruct_no_hits (lib : MathFunctions) (self : ClusterRecoCoG)
    (pcl : ProtoCluster) (hempty : pcl.hits = []) :
    ClusterRecoCoG.reconstruct lib self pcl = Reconstructed.done
      { nhits := 0, energy := 0, energyError := 0, time := 0, timeError := 0,
        position := { x := 0, y := 0, z := 0 },
        positionError := { xx := 0, yy := 0, zz := 0, xy := 0, xz := 0, yz := 0 },
        intrinsicTheta := 0, intrinsicPhi := 0, shapeParameters := [] } := by
  unfold ClusterRecoCoG.reconstruct
  simp [hempty, Cluster.empty]

/-- Witness for C15: the proto-cluster without hits. -/
theorem reconstruct_no_hits_witness :
    pcl_empty.hits = [] ∧
    ClusterRecoCoG.reconstruct stand_in reco_none pcl_empty = Reconstructed.done
      { nhits := 0, energy := 0, energyError := 0, time := 0, timeError := 0,
        position := { x := 0, y := 0, z := 0 },
        positionError := { xx := 0, yy := 0, zz := 0, xy := 0, xz := 0, yz := 0 },
        intrinsicTheta := 0, intrinsicPhi := 0, shapeParameters := [] } :=
  ⟨rfl, reconstruct_no_hits stand_in reco_none pcl_empty rfl⟩

/-- C16: the three registered weighting functions. Under `"none"` the registry holds
`constWeight`, which returns 1; under `"linear"` it holds `linearWeight`, which returns `E`;
under `"log"` it holds `logWeight`, which returns `max(0, p + log(E / tE))` and is never
negative. -/
theorem weighting_functions_values (log : ℚ → ℚ) (E tE p : ℚ) (type : Int) :
    (weightMethods log).lookup "none" = some constWeight ∧
    (weightMethods log).lookup "linear" = some linearWeight ∧
    (weightMethods log).lookup "log" = some (logWeight log) ∧
    constWeight E tE p type = 1 ∧
    linearWeight E tE p type = E ∧
    logWeight log E tE p type = max 0 (p + log (E / tE)) ∧
    0 ≤ logWeight log E tE p type := by
  refine ⟨?_, ?_, ?_, rfl, rfl, rfl, le_max_left _ _⟩ <;>
    rw [weightMethods_lookup] <;> simp

/-- C17: weighting-function selection in `ClusterRecoCoG::initialize` is case-insensitive
and closed. With the base-class `initialize` successful and the geometry service found,
`initialize` returns `SUCCESS` exactly when the lower-cased `energyWeight` is `"none"`,
`"linear"` or `"log"`, and `FAILURE` otherwise; on success `weightFunc` is the function
registered under the lower-cased name. -/
theorem initialize_selects_weighting (lib : MathFunctions) (geo : GeoSvc)
    (self : ClusterRecoCoG) :
    (( ClusterRecoCoG.initialize lib StatusCode.SUCCESS (some geo) self).1
        = StatusCode.SUCCESS ↔
      self.m_energyWeight.map Char.toLower = "none" ∨
      self.m_energyWeight.map Char.toLower = "linear" ∨
      self.m_energyWeight.map Char.toLower = "log") ∧
    (( ClusterRecoCoG.initialize lib StatusCode.SUCCESS (some geo) self).1
        = StatusCode.FAILURE ↔
      ¬ (self.m_energyWeight.map Char.toLower = "none" ∨
         self.m_energyWeight.map Char.toLower = "linear" ∨
         self.m_energyWeight.map Char.toLower = "log")) ∧
    (self.m_energyWeight.map Char.toLower = "none" →
      ( ClusterRecoCoG.initialize lib StatusCode.SUCCESS (some geo) self).2.weightFunc
        = constWeight) ∧
    (self.m_energyWeight.map Char.toLower = "linear" →
      ( ClusterRecoCoG.initialize lib StatusCode.SUCCESS (some geo) self).2.weightFunc
        = linearWeight) ∧
    (self.m_energyWeight.map Char.toLower = "log" →
      ( ClusterRecoCoG.initialize lib StatusCode.SUCCESS (some geo) self).2.weightFunc
        = logWeight lib.log) := by
  have hname : ∀ name : String, (if (!self.m_moduleDimZName.isEmpty) = true then
        { self with m_depthCorrection := geo.constantAsDouble self.m_moduleDimZName }
      else self).m_energyWeight = self.m_energyWeight := by
    intro _
    split <;> rfl
  unfold ClusterRecoCoG.initialize
  simp only [hname "", weightMethods_lookup]
  by_cases h1 : self.m_energyWeight.map Char.toLower = "none"
  · simp [h1]
  · by_cases h2 : self.m_energyWeight.map Char.toLower = "linear"
    · simp [h2]
    · by_cases h3 : self.m_energyWeight.map Char.toLower = "log"
      · simp [h3]
      · simp [h1, h2, h3]

/-- Witness for C17: the name `"LoG"` selects `logWeight`. -/
theorem initialize_selects_weighting_witness :
    ( ClusterRecoCoG.initialize stand_in StatusCode.SUCCESS
        (some { constantAsDouble := fun _ => 0 })
        { reco_none with m_energyWeight := "LoG" }).1 = StatusCode.SUCCESS ∧
    ( ClusterRecoCoG.initialize stand_in StatusCode.SUCCESS
        (some { constantAsDouble := fun _ => 0 })
        { reco_none with m_energyWeight := "LoG" }).2.weightFunc = logWeight stand_in.log := by
  have hlow : ({ reco_none with m_energyWeight := "LoG" } : ClusterRecoCoG).m_energyWeight.map
      Char.toLower = "log" := by
    rw [String.map_eq]
    decide
  have h := initialize_selects_weighting stand_in { constantAsDouble := fun _ => 0 }
    { reco_none with m_energyWeight := "LoG" }
  exact ⟨h.1.mpr (Or.inr (Or.inr hlow)), h.2.2.2.2 hlow⟩

/-- C18, as stated, fails when the eta clamp is enabled: with weighting `"none"` and two
hits at `(1, 0, 1)` and `(0, 1, 1)`, the mean `(1/2, 1/2, 1)` has a larger pseudorapidity
than both hits, the clamp re-projects it, and the reconstructed position is not the mean. -/
theorem mean_position_fails_when_clamped :
    reco_none_clamped.weightFunc = constWeight ∧ pcl_pair.hits ≠ [] ∧
    ∃ cl : Cluster,
      ClusterRecoCoG.reconstruct stand_in reco_none_clamped pcl_pair
        = Reconstructed.done cl ∧
      cl.position ≠ mean_position pcl_pair := by
  obtain ⟨cl, hrun, _⟩ := reconstruct_done stand_in reco_none_clamped pcl_pair (by decide)
    (by with_unfolding_all decide)
  refine ⟨rfl, by decide, cl, hrun, ?_⟩
  have hval : ( ClusterRecoCoG.reconstruct stand_in reco_none_clamped pcl_pair).cluster.position
      ≠ mean_position pcl_pair := by with_unfolding_all decide
  rw [hrun] at hval
  exact hval

/-- C18, amended: with weighting `"none"`, for every non-empty proto-cluster the weighted
centroid is the unweighted arithmetic mean of the hit positions, and it is the reconstructed
position whenever the eta clamp is disabled or does not fire (the pseudorapidity of the mean
is neither above `maxHitEta` nor below `minHitEta`). -/
theorem reconstruct_const_weight_mean (lib : MathFunctions) (self : ClusterRecoCoG)
    (pcl : ProtoCluster) (hwf : self.weightFunc = constWeight) (hne : pcl.hits ≠ [])
    (hclamp : self.m_enableEtaBounds = false ∨
      (¬ lib.eta (mean_position pcl) > (energy_sums lib pcl).maxHitEta ∧
       ¬ lib.eta (mean_position pcl) < (energy_sums lib pcl).minHitEta)) :
    center_of_gravity self pcl = mean_position pcl ∧
    ∃ cl : Cluster, ClusterRecoCoG.reconstruct lib self pcl = Reconstructed.done cl ∧
      cl.position.x = (pcl.hits.map (fun hit => hit.position.x)).sum / (pcl.hits.length : ℚ) ∧
      cl.position.y = (pcl.hits.map (fun hit => hit.position.y)).sum / (pcl.hits.length : ℚ) ∧
      cl.position.z = (pcl.hits.map (fun hit => hit.position.z)).sum / (pcl.hits.length : ℚ) := by
  have hlen : (pcl.hits.length : ℚ) ≠ 0 := by
    have : pcl.hits.length ≠ 0 := fun h => hne (List.length_eq_zero.mp h)
    exact_mod_cast this
  have htw : (position_weights self pcl).sum ≠ 0 := by
    rw [position_weights_const self pcl hwf]
    exact hlen
  obtain ⟨cl, hrun, hpos, _⟩ := reconstruct_done lib self pcl hne htw
  rw [center_of_gravity_const self pcl hwf] at hpos
  have hpos' : cl.position = mean_position pcl := by
    rw [hpos]
    rcases hclamp with hoff | ⟨hmax, hmin⟩
    · exact constrain_eta_off lib self _ _ hoff
    · exact constrain_eta_inside lib self _ _ hmax hmin
  refine ⟨center_of_gravity_const self pcl hwf, cl, hrun, ?_, ?_, ?_⟩ <;> rw [hpos'] <;> rfl

/-- Witness for C18 (scenario A): with the clamp disabled, two hits at `(1, 0, 1)` and
`(0, 1, 1)` give the midpoint `(1/2, 1/2, 1)`. -/
theorem reconstruct_const_weight_mean_witness :
    reco_none.weightFunc = constWeight ∧ pcl_pair.hits ≠ [] ∧
    reco_none.m_enableEtaBounds = false ∧
    ∃ cl : Cluster,
      ClusterRecoCoG.reconstruct stand_in reco_none pcl_pair = Reconstructed.done cl ∧
      cl.position.x = 1 / 2 ∧ cl.position.y = 1 / 2 ∧ cl.position.z = 1 := by
  obtain ⟨_, cl, hrun, hx, hy, hz⟩ :=
    reconstruct_const_weight_mean stand_in reco_none pcl_pair rfl (by decide) (Or.inl rfl)
  refine ⟨rfl, by decide, rfl, cl, hrun, ?_, ?_, ?_⟩
  · rw [hx]; with_unfolding_all decide
  · rw [hy]; with_unfolding_all decide
  · rw [hz]; with_unfolding_all decide

/-- C20: for every proto-cluster with more than one hit, `shapeParameters` is the
two-element list `[radius, 0]` with
`radius = sqrt(Σ_i |hit_i.position − P|² / (numHits − 1))`, where `P` is the final position
of the cluster and the sum runs over all input hits, unweighted; the second entry is 0
whatever the hits are. When the total weight is zero the position `P` is not a finite
vector, and neither is the radius computed from it; otherwise all are numbers and the
returned cluster holds them. -/
theorem reconstruct_shape_parameters (lib : MathFunctions) (self : ClusterRecoCoG)
    (pcl : ProtoCluster) (hmany : 1 < pcl.hits.length) :
    ( ClusterRecoCoG.reconstruct lib self pcl).members.shapeParameters =
      [( ClusterRecoCoG.reconstruct lib self pcl).members.position.map (fun P =>
          lib.sqrt ((pcl.hits.map (fun hit =>
            (P.x - hit.position.x) ^ 2 + (P.y - hit.position.y) ^ 2
              + (P.z - hit.position.z) ^ 2)).sum
            / ((pcl.hits.length : ℚ) - 1))),
        some 0] ∧
    ((( ClusterRecoCoG.reconstruct lib self pcl).members.position = none ↔
        ((pcl.hits.zip pcl.weights).map (fun hw =>
          self.weightFunc (hw.1.energy * hw.2)
            ((pcl.hits.zip pcl.weights).map (fun hw => hw.1.energy * hw.2)).sum
            self.m_logWeightBase 0)).sum = 0)) ∧
    (((pcl.hits.zip pcl.weights).map (fun hw =>
          self.weightFunc (hw.1.energy * hw.2)
            ((pcl.hits.zip pcl.weights).map (fun hw => hw.1.energy * hw.2)).sum
            self.m_logWeightBase 0)).sum ≠ 0 →
      ∃ cl : Cluster, ClusterRecoCoG.reconstruct lib self pcl = Reconstructed.done cl ∧
        cl.shapeParameters =
          [lib.sqrt ((pcl.hits.map (fun hit =>
              (cl.position.x - hit.position.x) ^ 2 + (cl.position.y - hit.position.y) ^ 2
                + (cl.position.z - hit.position.z) ^ 2)).sum
              / ((pcl.hits.length : ℚ) - 1)), 0]) := by
  have hne : pcl.hits ≠ [] := by
    intro h
    rw [h] at hmany
    simp at hmany
  obtain ⟨hposition, _, _, hshape⟩ := reconstruct_members lib self pcl hne
  refine ⟨?_, ?_, ?_⟩
  · rw [hshape, if_pos hmany]
    rfl
  · constructor
    · intro hnone
      by_contra htw
      have htw' : (position_weights self pcl).sum ≠ 0 := htw
      rw [hposition, weighted_centroid, if_neg htw'] at hnone
      simp at hnone
    · intro htw
      have htw' : (position_weights self pcl).sum = 0 := htw
      rw [hposition, weighted_centroid, if_pos htw']
      rfl
  · intro htw
    obtain ⟨cl, hrun, _, _, _, _, hshape'⟩ := reconstruct_done lib self pcl hne htw
    refine ⟨cl, hrun, ?_⟩
    rw [hshape', if_pos hmany]
    rfl

/-- Witness for C20: three hits at `x = 0, 2, 4` around the position `(2, 0, 1)` give
`radius = sqrt(8 / 2) = 2`. -/
theorem reconstruct_shape_parameters_witness :
    1 < pcl_line.hits.length ∧
    ( ClusterRecoCoG.reconstruct stand_in reco_linear pcl_line).members.position
      = some { x := 2, y := 0, z := 1 } ∧
    ( ClusterRecoCoG.reconstruct stand_in reco_linear pcl_line).members.shapeParameters
      = [some 2, some 0] := by
  have h := (reconstruct_shape_parameters stand_in reco_linear pcl_line (by decide)).1
  have hpos : ( ClusterRecoCoG.reconstruct stand_in reco_linear pcl_line).members.position
      = some { x := 2, y := 0, z := 1 } := by with_unfolding_all decide
  refine ⟨by decide, hpos, ?_⟩
  rw [h, hpos]
  with_unfolding_all decide

/-- Two hits of energy 0 with linear weighting: the total weight is zero, `reconstruct`
divides by it, and the cluster still gets two shape parameters, the second of which is 0;
the position, the intrinsic angles and the radius are not finite numbers. -/
theorem reconstruct_zero_weight_pair :
    (position_weights reco_linear pcl_zero_pair).sum = 0 ∧
    ClusterRecoCoG.reconstruct stand_in reco_linear pcl_zero_pair
      = Reconstructed.division_by_zero
          { Cluster.empty with nhits := 2, time := 5, timeError := 1 }
          { position := none, intrinsicTheta := none, intrinsicPhi := none,
            shapeParameters := [none, some 0] } :=
  ⟨by with_unfolding_all decide, by with_unfolding_all decide⟩


/-! ## Maximality of the groups -/

/-- Two stretches of the traversal compose. -/
theorem closes_trans {self : ImagingTopoCluster} {hits : List ImagingPixel}
    {v v1 v2 : List Bool} (h1 : Closes self hits v v1) (h2 : Closes self hits v1 v2) :
    Closes self hits v v2 := by
  obtain ⟨hl1, hm1, hc1⟩ := h1
  obtain ⟨hl2, hm2, hc2⟩ := h2
  refine ⟨hl2.trans hl1, fun i h => hm2 i (hm1 i h), ?_⟩
  intro j hj hget henergy hfalse htrue k hk hgetk hnb
  have hjlt : j < v1.length := by
    rw [hl1]
    exact (List.getElem?_eq_some.mp hfalse).1
  cases hb : v1[j] with
  | true =>
    have hv1 : v1[j]? = some true := List.getElem?_eq_some.mpr ⟨hjlt, hb⟩
    exact hm2 k (hc1 j hj hget henergy hfalse hv1 k hk hgetk hnb)
  | false =>
    have hv1 : v1[j]? = some false := List.getElem?_eq_some.mpr ⟨hjlt, hb⟩
    exact hc2 j hj hget henergy hv1 htrue k hk hgetk hnb

/-- Nothing happens: the flags are unchanged. -/
theorem closes_refl (self : ImagingTopoCluster) (hits : List ImagingPixel) (v : List Bool) :
    Closes self hits v v := by
  refine ⟨rfl, fun _ h => h, ?_⟩
  intro j hj _ _ hfalse htrue
  rw [hfalse] at htrue
  cases htrue

/-- The loop of `dfs_group`, when it returns: the flags are closed, and every neighbour of
`hit` among the indices looped over is visited. -/
theorem dfs_loop_closes (self : ImagingTopoCluster) (hits : List ImagingPixel)
    (recurse : Nat → DfsState → Option DfsState) (hrec : RecCloses self hits recurse)
    (hit : ImagingPixel) :
    ∀ (is : List Nat) (st st' : DfsState), dfs_loop self hits recurse hit is st = some st' →
      st.2.length = hits.length →
      Closes self hits st.2 st'.2 ∧
      ∀ k ∈ is, ∀ hk : ImagingPixel, hits[k]? = some hk → is_neighbor self hit hk = true →
        st'.2[k]? = some true := by
  intro is
  induction is with
  | nil =>
    intro st st' hrun _
    simp only [dfs_loop, Option.some.injEq] at hrun
    subst hrun
    exact ⟨closes_refl self hits _, by simp⟩
  | cons i is ih =>
    intro st st' hrun hlen
    rw [dfs_loop] at hrun
    cases hget : hits[i]? with
    | none => rw [hget] at hrun; cases hrun
    | some hi =>
      rw [hget] at hrun
      simp only at hrun
      have hilt : i < st.2.length := by
        rw [hlen]
        exact (List.getElem?_eq_some.mp hget).1
      by_cases hc : (st.2.getD i false || !is_neighbor self hit hi) = true
      · rw [if_pos hc] at hrun
        obtain ⟨hcl, hnbs⟩ := ih st st' hrun hlen
        refine ⟨hcl, ?_⟩
        intro k hk hk' hgetk hnb
        rcases List.mem_cons.mp hk with hk | hk
        · subst hk
          rw [hget] at hgetk
          cases hgetk
          have hv : st.2.getD k false = true := by
            rcases Bool.or_eq_true _ _ ▸ hc with hv | hnot
            · exact hv
            · rw [hnb] at hnot
              cases hnot
          refine hcl.2.1 k ?_
          rw [List.getD_eq_getElem?_getD, List.getElem?_eq_getElem hilt] at hv
          rw [List.getElem?_eq_getElem hilt]
          simpa using hv
        · exact hnbs k hk hk' hgetk hnb
      · rw [if_neg hc] at hrun
        cases h1 : recurse i st with
        | none => rw [h1] at hrun; cases hrun
        | some st1 =>
          rw [h1] at hrun
          simp only [Option.some_bind] at hrun
          obtain ⟨hcl1, hmark⟩ := hrec i st st1 h1 hlen
          obtain ⟨hcl2, hnbs⟩ := ih st1 st' hrun (hcl1.1.trans hlen)
          refine ⟨closes_trans hcl1 hcl2, ?_⟩
          intro k hk hk' hgetk hnb
          rcases List.mem_cons.mp hk with hk | hk
          · subst hk
            exact hcl2.2.1 k hmark
          · exact hnbs k hk hk' hgetk hnb

/-- A call of `dfs_group` that returns has visited every neighbour of every hit it pushed,
and has marked its own index. -/
theorem dfs_group_closes (self : ImagingTopoCluster) (hits : List ImagingPixel) :
    ∀ depth : Nat, RecCloses self hits (fun i st => dfs_group self hits depth i st) := by
  intro depth
  induction depth with
  | zero =>
    intro idx st st' hrun _
    simp [dfs_group] at hrun
  | succ depth ih =>
    intro idx st st' hrun hlen
    obtain ⟨group, visits⟩ := st
    simp only at hlen
    simp only [dfs_group] at hrun
    cases hget : hits[idx]? with
    | none => rw [hget] at hrun; cases hrun
    | some h =>
      rw [hget] at hrun
      simp only at hrun
      have hidx : idx < visits.length := by
        rw [hlen]
        exact (List.getElem?_eq_some.mp hget).1
      have hset : (visits.set idx true)[idx]? = some true := by
        rw [List.getElem?_set]; simp [hidx]
      by_cases hlow : h.edep < self.minClusterHitEdep
      · rw [if_pos hlow] at hrun
        simp only [Option.some.injEq] at hrun
        subst hrun
        refine ⟨⟨by simp, fun i hi => getElem?_set_true_of_true hi, ?_⟩, hset⟩
        intro j hj hgetj henergy hfalse htrue
        rcases getElem?_set_true_cases htrue with hji | hji
        · subst hji
          rw [hget] at hgetj
          cases hgetj
          exact absurd hlow henergy
        · simp only at hfalse
          rw [hfalse] at hji
          cases hji
      · rw [if_neg hlow] at hrun
        obtain ⟨hcl, hnbs⟩ := dfs_loop_closes self hits _ ih _ _ _ _ hrun
          (by simpa using hlen)
        refine ⟨⟨hcl.1.trans (by simp), fun i hi => hcl.2.1 i (getElem?_set_true_of_true hi), ?_⟩,
          hcl.2.1 idx hset⟩
        intro j hj hgetj henergy hfalse htrue k hk hgetk hnb
        by_cases hji : idx = j
        · subst hji
          rw [hget] at hgetj
          cases hgetj
          exact hnbs k (List.mem_range.mpr (List.getElem?_eq_some.mp hgetk).1) hk hgetk hnb
        · refine hcl.2.2 j hj hgetj henergy ?_ htrue k hk hgetk hnb
          simp only at hfalse ⊢
          rw [List.getElem?_set_ne hji]
          exact hfalse

/-- An index behind a group names a member of the group, and conversely. -/
theorem mem_of_at_idx {hits : List ImagingPixel} {I : List Nat} {N : List ImagingPixel}
    (hat : I.map (fun i => hits[i]?) = N.map some) :
    (∀ i ∈ I, ∀ a : ImagingPixel, hits[i]? = some a → a ∈ N) ∧
    (∀ a ∈ N, ∃ i ∈ I, hits[i]? = some a) := by
  constructor
  · intro i hi a hget
    have h1 : some a ∈ I.map (fun i => hits[i]?) := by
      rw [← hget]
      exact List.mem_map_of_mem _ hi
    rw [hat] at h1
    obtain ⟨a', ha', heq⟩ := List.mem_map.mp h1
    cases heq
    exact ha'
  · intro a ha
    have h1 : some a ∈ N.map some := List.mem_map_of_mem _ ha
    rw [← hat] at h1
    obtain ⟨i, hi, heq⟩ := List.mem_map.mp h1
    exact ⟨i, hi, heq⟩

/-- The first loop of `execute` keeps the maximality invariant. -/
theorem group_loop_maximal (self : ImagingTopoCluster) (hits : List ImagingPixel) :
    ∀ (is : List Nat) (st : GroupsState) (G : List (List Nat)),
      (∀ i ∈ is, i < hits.length) → MaxInv self hits st G →
      ∃ st' G', group_loop self hits is st = some st' ∧ MaxInv self hits st' G' := by
  intro is
  induction is with
  | nil =>
    intro st G _ hinv
    exact ⟨st, G, by rw [group_loop], hinv⟩
  | cons i is ih =>
    intro st G hrange hinv
    obtain ⟨groups, visits⟩ := st
    have hi : i < hits.length := hrange i (List.mem_cons_self _ _)
    have hrange' : ∀ j ∈ is, j < hits.length := fun j hj => hrange j (List.mem_cons_of_mem _ hj)
    have hget : hits[i]? = some hits[i] := List.getElem?_eq_getElem hi
    have hlen : visits.length = hits.length := hinv.length_eq
    simp only [group_loop, hget]
    by_cases hc : (visits.getD i false || decide (hits[i].edep < self.minClusterCenterEdep)) = true
    · simp only [hc, if_true]
      exact ih (groups, visits) G hrange' hinv
    · simp only [hc]
      simp only [Bool.or_eq_true, decide_eq_true_eq, not_or, Bool.not_eq_true, not_lt] at hc
      obtain ⟨hvis, _⟩ := hc
      have hfalse : visits[i]? = some false := getElem?_false_of_getD (by omega) hvis
      obtain ⟨st1, hrun1, I1, N1, hg, _, _, _⟩ :=
        dfs_group_spec self hits hits.length i ([], visits) hlen hfalse
          (by simp only; rw [← hlen]; exact List.count_le_length _ _)
      simp only at hrun1
      obtain ⟨hcl, _⟩ := dfs_group_closes self hits hits.length i ([], visits) st1 hrun1 hlen
      simp only at hcl
      have hN1 : st1.1 = N1 := by simpa using hg.group_eq
      obtain ⟨hmemI, _⟩ := mem_of_at_idx hg.at_idx
      have hnew_nb : ∀ i' ∈ I1, ∀ a : ImagingPixel, hits[i']? = some a →
          ∀ (k : Nat) (hk : ImagingPixel), hits[k]? = some hk → is_neighbor self a hk = true →
            st1.2[k]? = some true := by
        intro i' hi' a hgeta k hk hgetk hnb
        exact hcl.2.2 i' a hgeta (not_lt.mpr (hg.energetic a (hmemI i' hi' a hgeta)))
          (hg.fresh i' hi') (hg.marked i' hi') k hk hgetk hnb
      have hinv1 : MaxInv self hits (groups ++ [st1.1], st1.2) (G ++ [I1]) := by
        constructor
        · simp only [List.map_append, List.map_cons, List.map_nil, hinv.at_idx, hN1, hg.at_idx]
        · exact hg.length_eq.trans hlen
        · intro j hj
          rw [List.flatten_append]
          rcases hg.visited_only j hj with h | h | h
          · rcases hinv.visited_only j h with h | h
            · exact Or.inl (List.mem_append_left _ h)
            · exact Or.inr h
          · exact Or.inl (List.mem_append_right _ (by simpa using h))
          · exact Or.inr h
        · intro I hI i' hi' a hgeta k hk hgetk hnb
          rcases List.mem_append.mp hI with hI | hI
          · exact hg.mono k (hinv.neighbours_visited I hI i' hi' a hgeta k hk hgetk hnb)
          · rw [List.mem_singleton.mp hI] at hi'
            exact hnew_nb i' hi' a hgeta k hk hgetk hnb
        · intro I hI i' hi' a hgeta j b hgetb henergy hnb
          rcases List.mem_append.mp hI with hI | hI
          · exact hinv.closed I hI i' hi' a hgeta j b hgetb henergy hnb
          · rw [List.mem_singleton.mp hI] at hi' ⊢
            have hjv : st1.2[j]? = some true := hnew_nb i' hi' a hgeta j b hgetb hnb
            have hjlt : j < visits.length := by
              rw [hlen]
              exact (List.getElem?_eq_some.mp hgetb).1
            cases hb : visits[j] with
            | false =>
              have hvj : visits[j]? = some false := List.getElem?_eq_some.mpr ⟨hjlt, hb⟩
              rcases hg.visited_only j hjv with h | h | ⟨b', hgetb', hlow⟩
              · simp only at h
                rw [hvj] at h
                cases h
              · exact h
              · rw [hgetb] at hgetb'
                cases hgetb'
                exact absurd hlow (not_lt.mpr henergy)
            | true =>
              have hvj : visits[j]? = some true := List.getElem?_eq_some.mpr ⟨hjlt, hb⟩
              rcases hinv.visited_only j hvj with hmem | ⟨b', hgetb', hlow⟩
              · obtain ⟨I', hI', hjI'⟩ := List.mem_flatten.mp hmem
                have hback : is_neighbor self b a = true := by
                  rw [is_neighbor_comm]
                  exact hnb
                have hvi := hinv.neighbours_visited I' hI' j hjI' b hgetb i' a hgeta hback
                have hfresh := hg.fresh i' hi'
                simp only at hvi hfresh
                rw [hvi] at hfresh
                cases hfresh
              · rw [hgetb] at hgetb'
                cases hgetb'
                exact absurd hlow (not_lt.mpr henergy)
      obtain ⟨st', G', hrun, hinv'⟩ := ih (groups ++ [st1.1], st1.2) (G ++ [I1]) hrange' hinv1
      exact ⟨st', G', by simp [hrun1, hrun], hinv'⟩

/-- The groups built by `execute` are closed under adjacency: index by index. -/
theorem build_groups_maximal (self : ImagingTopoCluster) (hits : List ImagingPixel) :
    ∃ (groups : List (List ImagingPixel)) (idxGroups : List (List Nat)),
      build_groups self hits = some groups ∧
      idxGroups.map (fun I => I.map (fun i => hits[i]?)) = groups.map (fun g => g.map some) ∧
      ∀ I ∈ idxGroups, ∀ i ∈ I, ∀ a : ImagingPixel, hits[i]? = some a →
        ∀ (j : Nat) (b : ImagingPixel), hits[j]? = some b →
          self.minClusterHitEdep ≤ b.edep → is_neighbor self a b = true → j ∈ I := by
  have hinit : MaxInv self hits ([], List.replicate hits.length false) [] := by
    constructor
    · rfl
    · simp
    · intro i hi
      simp only [List.getElem?_replicate] at hi
      split at hi <;> cases hi
    · simp
    · simp
  obtain ⟨st', G', hrun, hinv⟩ :=
    group_loop_maximal self hits (List.range hits.length) _ [] (fun i hi => List.mem_range.mp hi)
      hinit
  exact ⟨st'.1, G', by simp [build_groups, hrun], hinv.at_idx, hinv.closed⟩


/-- A flag that is already set takes one entry away from the unvisited ones. -/
theorem count_false_lt_length_of_true {v : List Bool} {idx : Nat} (h : v[idx]? = some true) :
    v.count false + 1 ≤ v.length := by
  have hmem : true ∈ v := by
    obtain ⟨hlt, heq⟩ := List.getElem?_eq_some.mp h
    rw [← heq]
    exact List.getElem_mem hlt
  have hpos : 0 < v.count true := List.count_pos_iff.mpr hmem
  have hsum : v.count true + v.count false = v.length := List.count_true_add_count_false v
  omega

/-- Setting a flag never adds an unvisited entry. -/
theorem count_false_set_true_le : ∀ (v : List Bool) (idx : Nat),
    (v.set idx true).count false ≤ v.count false
  | [], idx => by simp
  | b :: v, 0 => by cases b <;> simp
  | b :: v, idx + 1 => by
    have ih := count_false_set_true_le v idx
    cases b <;> simp [List.count_cons] <;> omega

/-- The function `dfs_group` returns for every valid start index and every state of the
flags, within the budget `hits.size()`. -/
theorem dfs_group_total (self : ImagingTopoCluster) (hits : List ImagingPixel)
    (idx : Nat) (group : List ImagingPixel) (visits : List Bool)
    (hidx : idx < hits.length) (hlen : visits.length = hits.length) :
    ∃ st' : DfsState, dfs_group self hits hits.length idx (group, visits) = some st' ∧
      st'.2.length = visits.length ∧ st'.2[idx]? = some true ∧
      st'.2.count false ≤ visits.count false ∧
      (visits[idx]? = some false → st'.2.count false < visits.count false) := by
  have hidxv : idx < visits.length := by omega
  cases hb : visits[idx] with
  | false =>
    have hfalse : visits[idx]? = some false := List.getElem?_eq_some.mpr ⟨hidxv, hb⟩
    obtain ⟨st', hrun, I, N, hg, hmark, hlt, _⟩ :=
      dfs_group_spec self hits hits.length idx (group, visits) hlen hfalse
        (by simp only; rw [← hlen]; exact List.count_le_length _ _)
    exact ⟨st', hrun, hg.length_eq, hmark, le_of_lt hlt, fun _ => hlt⟩
  | true =>
    have htrue : visits[idx]? = some true := List.getElem?_eq_some.mpr ⟨hidxv, hb⟩
    have hcount := count_false_lt_length_of_true htrue
    obtain ⟨d, hd⟩ : ∃ d, hits.length = d + 1 := ⟨hits.length - 1, by omega⟩
    have hget : hits[idx]? = some hits[idx] := List.getElem?_eq_getElem hidx
    have hset : (visits.set idx true)[idx]? = some true := by
      rw [List.getElem?_set]; simp [hidxv]
    have hsetle := count_false_set_true_le visits idx
    have hnot : ¬ (visits[idx]? = some false) := by
      rw [htrue]
      simp
    rw [hd]
    simp only [dfs_group, hget]
    by_cases hlow : hits[idx].edep < self.minClusterHitEdep
    · simp only [hlow, if_true]
      exact ⟨_, rfl, by simp, hset, hsetle, fun h => absurd h hnot⟩
    · simp only [hlow, if_false]
      obtain ⟨st', I, N, hrun, hg, _⟩ :=
        dfs_loop_spec self hits d _ (dfs_group_spec self hits d) hits[idx]
          (List.range hits.length) (group ++ [hits[idx]], visits.set idx true)
          (fun i hi => List.mem_range.mp hi) (by simpa using hlen) (by simp only; omega)
      refine ⟨st', hrun, ?_, hg.mono idx hset, ?_, fun h => absurd h hnot⟩
      · simpa using hg.length_eq
      · exact le_trans hg.count_le hsetle

/-- Every hit emitted by `execute` carries cluster ID 0. -/
theorem execute_clusterID_zero (self : ImagingTopoCluster) (hits : List ImagingPixel)
    (out : List ImagingPixel) (hrun : execute self hits = some (StatusCode.SUCCESS, out)) :
    ∀ h ∈ out, h.clusterID = 0 := by
  obtain ⟨groups, _, hb, _⟩ := build_groups_spec self hits
  rw [execute_eq self hits groups hb] at hrun
  simp only [Option.some.injEq, Prod.mk.injEq, true_and] at hrun
  subst hrun
  intro h hh
  obtain ⟨l, hl, hhl⟩ := List.mem_flatten.mp hh
  obtain ⟨g, _, rfl⟩ := List.mem_map.mp hl
  obtain ⟨h', _, rfl⟩ := List.mem_map.mp hhl
  rfl

/-! ## The claims on maximality, bridging, termination and cluster IDs -/

/-- C24: the groups are maximal connected components. If a hit belongs to a group, then
every input hit with energy at least `minClusterHitEdep` that is its neighbour under
`is_neighbor` belongs to that same group, both by input index (`idxGroups` lists the input
indices behind each group) and by value. -/
theorem groups_are_maximal (self : ImagingTopoCluster) (hits : List ImagingPixel) :
    ∃ (groups : List (List ImagingPixel)) (idxGroups : List (List Nat)),
      build_groups self hits = some groups ∧
      idxGroups.map (fun I => I.map (fun i => hits[i]?)) = groups.map (fun g => g.map some) ∧
      (∀ I ∈ idxGroups, ∀ i ∈ I, ∀ a : ImagingPixel, hits[i]? = some a →
        ∀ (j : Nat) (b : ImagingPixel), hits[j]? = some b →
          self.minClusterHitEdep ≤ b.edep → is_neighbor self a b = true → j ∈ I) ∧
      ∀ g ∈ groups, ∀ a ∈ g, ∀ b ∈ hits,
        self.minClusterHitEdep ≤ b.edep → is_neighbor self a b = true → b ∈ g := by
  obtain ⟨groups, G, hb, hG, hclosed⟩ := build_groups_maximal self hits
  refine ⟨groups, G, hb, hG, hclosed, ?_⟩
  intro g hg a ha b hbmem henergy hnb
  have h1 : g.map some ∈ groups.map (fun g => g.map some) := List.mem_map_of_mem _ hg
  rw [← hG] at h1
  obtain ⟨I, hI, hIg⟩ := List.mem_map.mp h1
  obtain ⟨hfwd, hbwd⟩ := mem_of_at_idx hIg
  obtain ⟨i, hi, hgeta⟩ := hbwd a ha
  obtain ⟨j, hj, hgetj⟩ := List.getElem_of_mem hbmem
  have hgetb : hits[j]? = some b := by rw [List.getElem?_eq_getElem hj, hgetj]
  exact hfwd j (hclosed I hI i hi a hgeta j b hgetb henergy hnb) b hgetb

/-- C25: a hit below the participation threshold is never used as a bridge. A call of
`dfs_group` on an index whose hit has energy below `minClusterHitEdep` returns at once with
the same group and with `visits` changed at that index only; and in every group built by
`execute` all hits have energy at least `minClusterHitEdep` and any two of them are joined
by a chain of neighbours that are all members of that group. -/
theorem low_hit_is_no_bridge (self : ImagingTopoCluster) (hits : List ImagingPixel) :
    (∀ (depth idx : Nat) (group : List ImagingPixel) (visits : List Bool) (h : ImagingPixel),
      hits[idx]? = some h → h.edep < self.minClusterHitEdep →
        dfs_group self hits (depth + 1) idx (group, visits)
          = some (group, visits.set idx true) ∧
        ∀ j : Nat, j ≠ idx → (visits.set idx true)[j]? = visits[j]?) ∧
    ∃ groups : List (List ImagingPixel), build_groups self hits = some groups ∧
      ∀ g ∈ groups, (∀ h ∈ g, self.minClusterHitEdep ≤ h.edep) ∧
        ∀ a ∈ g, ∀ b ∈ g,
          Relation.ReflTransGen (fun x y => x ∈ g ∧ y ∈ g ∧ is_neighbor self x y = true) a b := by
  constructor
  · intro depth idx group visits h hget hlow
    constructor
    · simp [dfs_group, hget, hlow]
    · intro j hj
      exact List.getElem?_set_ne (fun e => hj e.symm)
  · obtain ⟨groups, _, hb, _, _, hen, hconn, _, _⟩ := build_groups_spec self hits
    exact ⟨groups, hb, fun g hg => ⟨hen g hg, hconn g hg⟩⟩

/-- C28: `dfs_group` terminates for every hit collection, every valid start index and every
state of `visits`. It returns within the recursion budget `hits.size()` (so the recursion
is never deeper than the number of input hits, and no access to `hits` or `visits` is out of
bounds), a larger budget returns the same state, the start index is marked, the number of
unvisited hits never grows, and it strictly decreases when the start index was unvisited. -/
theorem dfs_group_terminates (self : ImagingTopoCluster) (hits : List ImagingPixel)
    (idx : Nat) (group : List ImagingPixel) (visits : List Bool)
    (hidx : idx < hits.length) (hlen : visits.length = hits.length) :
    ∃ st' : DfsState, dfs_group self hits hits.length idx (group, visits) = some st' ∧
      (∀ extra : Nat,
        dfs_group self hits (hits.length + extra) idx (group, visits) = some st') ∧
      st'.2.length = visits.length ∧ st'.2[idx]? = some true ∧
      st'.2.count false ≤ visits.count false ∧
      (visits[idx]? = some false → st'.2.count false < visits.count false) := by
  obtain ⟨st', hrun, h1, h2, h3, h4⟩ := dfs_group_total self hits idx group visits hidx hlen
  exact ⟨st', hrun,
    fun extra => dfs_group_depth_mono self hits hits.length extra idx _ st' hrun, h1, h2, h3, h4⟩

/-- Witness for C28: two neighbouring hits, start index 0, nothing visited. -/
theorem dfs_group_terminates_witness :
    0 < [hit_origin, hit_far_sector].length ∧
    [false, false].length = [hit_origin, hit_far_sector].length ∧
    ∃ st' : DfsState,
      dfs_group cfg_open [hit_origin, hit_far_sector] [hit_origin, hit_far_sector].length 0
        ([], [false, false]) = some st' ∧
      (∀ extra : Nat,
        dfs_group cfg_open [hit_origin, hit_far_sector]
          ([hit_origin, hit_far_sector].length + extra) 0 ([], [false, false]) = some st') ∧
      st'.2.length = [false, false].length ∧ st'.2[0]? = some true ∧
      st'.2.count false ≤ [false, false].count false ∧
      (([false, false] : List Bool)[0]? = some false →
        st'.2.count false < [false, false].count false) :=
  ⟨by decide, rfl,
    dfs_group_terminates cfg_open [hit_origin, hit_far_sector] 0 [] [false, false]
      (by decide) rfl⟩

/-- C29, the code at a failing input: two hits that are not neighbours form two groups, both
groups pass the filter, and both emitted hits carry cluster ID 0: the counter `clusterID`
of `execute` is never incremented. -/
theorem cluster_ids_coincide_across_groups :
    build_groups cfg_open [hit_cid7, hit_cid8] = some [[hit_cid7], [hit_cid8]] ∧
    execute cfg_open [hit_cid7, hit_cid8]
      = some (StatusCode.SUCCESS, [set_clusterID 0 hit_cid7, set_clusterID 0 hit_cid8]) ∧
    (set_clusterID 0 hit_cid7).clusterID = (set_clusterID 0 hit_cid8).clusterID := by
  refine ⟨by with_unfolding_all decide, by with_unfolding_all decide, rfl⟩

/-- C30: every input hit with energy at least the seed threshold `minClusterCenterEdep` and
at least the participation threshold `minClusterHitEdep` is placed in exactly one group
before the post-grouping filter (its index occurs exactly once among the indices behind all
groups), and it is marked visited after the grouping loop of `execute`. -/
theorem seedable_hits_grouped_once (self : ImagingTopoCluster) (hits : List ImagingPixel) :
    ∃ (st' : GroupsState) (idxGroups : List (List Nat)),
      group_loop self hits (List.range hits.length) ([], List.replicate hits.length false)
        = some st' ∧
      build_groups self hits = some st'.1 ∧
      idxGroups.map (fun I => I.map (fun i => hits[i]?)) = st'.1.map (fun g => g.map some) ∧
      ∀ (i : Nat) (h : ImagingPixel), hits[i]? = some h →
        self.minClusterCenterEdep ≤ h.edep → self.minClusterHitEdep ≤ h.edep →
          idxGroups.flatten.count i = 1 ∧ st'.2[i]? = some true ∧ ∃ g ∈ st'.1, h ∈ g := by
  have hinit : GroupsInv self hits ([], List.replicate hits.length false) [] := by
    constructor
    · rfl
    · simp
    · simp
    · simp
    · intro i hi
      simp only [List.getElem?_replicate] at hi
      split at hi <;> cases hi
    · simp
    · simp
    · simp
  obtain ⟨st', G', hrun, hinv, _, hdone⟩ :=
    group_loop_spec self hits (List.range hits.length) _ [] (fun i hi => List.mem_range.mp hi) hinit
  refine ⟨st', G', hrun, by simp [build_groups, hrun], hinv.at_idx, ?_⟩
  intro i h hget hseed hhit
  have hi : i < hits.length := (List.getElem?_eq_some.mp hget).1
  have hvis : st'.2[i]? = some true := by
    rcases hdone i (List.mem_range.mpr hi) with hv | ⟨h', hget', hlow⟩
    · exact hv
    · rw [hget] at hget'
      cases hget'
      exact absurd hlow (not_lt.mpr hseed)
  have hmem : i ∈ G'.flatten := by
    rcases hinv.visited_only i hvis with hmem | ⟨h', hget', hlow⟩
    · exact hmem
    · rw [hget] at hget'
      cases hget'
      exact absurd hlow (not_lt.mpr hhit)
  exact ⟨List.count_eq_one_of_mem hinv.nodup hmem, hvis,
    mem_group_of_index hits st'.1 G' hinv.at_idx i h hget hmem⟩


/-! ## Coverage of the groups -/

/-- The members of the groups are input hits, and every group holds, with one of its hits,
all the input hits with energy at least `minClusterHitEdep` that are neighbours of it. -/
theorem groups_closed_by_value (self : ImagingTopoCluster) (hits : List ImagingPixel)
    (groups : List (List ImagingPixel)) (hb : build_groups self hits = some groups) :
    (∀ g ∈ groups, ∀ a ∈ g, a ∈ hits) ∧
    ∀ g ∈ groups, ∀ a ∈ g, ∀ b ∈ hits,
      self.minClusterHitEdep ≤ b.edep → is_neighbor self a b = true → b ∈ g := by
  obtain ⟨groups', G, hb', hG, hclosed⟩ := build_groups_maximal self hits
  have heq : groups' = groups := Option.some.inj (hb'.symm.trans hb)
  subst heq
  constructor
  · intro g hg a ha
    have h1 : g.map some ∈ groups'.map (fun g => g.map some) := List.mem_map_of_mem _ hg
    rw [← hG] at h1
    obtain ⟨I, _, hIg⟩ := List.mem_map.mp h1
    obtain ⟨i, _, hgeta⟩ := (mem_of_at_idx hIg).2 a ha
    obtain ⟨hlt, heq⟩ := List.getElem?_eq_some.mp hgeta
    rw [← heq]
    exact List.getElem_mem hlt
  · intro g hg a ha b hbmem henergy hnb
    have h1 : g.map some ∈ groups'.map (fun g => g.map some) := List.mem_map_of_mem _ hg
    rw [← hG] at h1
    obtain ⟨I, hI, hIg⟩ := List.mem_map.mp h1
    obtain ⟨hfwd, hbwd⟩ := mem_of_at_idx hIg
    obtain ⟨i, hi, hgeta⟩ := hbwd a ha
    obtain ⟨j, hj, hgetj⟩ := List.getElem_of_mem hbmem
    have hgetb : hits[j]? = some b := by rw [List.getElem?_eq_getElem hj, hgetj]
    exact hfwd j (hclosed I hI i hi a hgeta j b hgetb henergy hnb) b hgetb

/-- C3, amended: the groups built by the grouper cover every input hit with energy at least
the participation threshold `minClusterHitEdep` that is a seed candidate (its energy is also
at least `minClusterCenterEdep`) or is linked to a seed candidate by a chain of input hits
with energy at least `minClusterHitEdep` in which consecutive hits are neighbours under
`is_neighbor`; and they hold no other hit. -/
theorem groups_cover_hits_linked_to_seed (self : ImagingTopoCluster)
    (hits : List ImagingPixel) :
    ∃ groups : List (List ImagingPixel), build_groups self hits = some groups ∧
      ∀ h ∈ hits,
        ((∃ g ∈ groups, h ∈ g) ↔
          ∃ s ∈ hits, self.minClusterHitEdep ≤ s.edep ∧ self.minClusterCenterEdep ≤ s.edep ∧
            Relation.ReflTransGen
              (fun a b => b ∈ hits ∧ self.minClusterHitEdep ≤ b.edep ∧
                is_neighbor self a b = true) s h) := by
  obtain ⟨groups, G, hb, hG, _, hen, hconn, hseed, hcov⟩ := build_groups_spec self hits
  obtain ⟨hsubset, hclosed⟩ := groups_closed_by_value self hits groups hb
  refine ⟨groups, hb, ?_⟩
  intro h hh
  clear hh
  constructor
  · rintro ⟨g, hg, hhg⟩
    obtain ⟨s, hs, hcenter, hhead⟩ := hseed g hg
    cases hgl : g with
    | nil =>
      rw [hgl] at hhg
      cases hhg
    | cons x rest =>
      have hx : x = s := hhead x (by rw [hgl]; rfl)
      have hxg : x ∈ g := by rw [hgl]; exact List.mem_cons_self _ _
      refine ⟨s, hs, ?_, hcenter, ?_⟩
      · rw [← hx]
        exact hen g hg x hxg
      · rw [← hx]
        refine Relation.ReflTransGen.mono ?_ (hconn g hg x hxg h hhg)
        intro a b hab
        obtain ⟨_, hbg, hnb⟩ := hab
        exact ⟨hsubset g hg b hbg, hen g hg b hbg, hnb⟩
  · rintro ⟨s, hs, h1, h2, hchain⟩
    obtain ⟨i, hi, hget⟩ := List.getElem_of_mem hs
    have hget' : hits[i]? = some s := by rw [List.getElem?_eq_getElem hi, hget]
    obtain ⟨g, hg, hsg⟩ := mem_group_of_index hits groups G hG i s hget' (hcov i s hget' h1 h2)
    refine ⟨g, hg, ?_⟩
    induction hchain with
    | refl => exact hsg
    | tail _ hstep ih => exact hclosed g hg _ ih _ hstep.1 hstep.2.1 hstep.2.2


/-! ## Cluster reconstruction: single hits, eta bounds and the total-energy argument -/

/-- The clamp block leaves the position of a single hit as it is when the clamp is
disabled, or when the pseudorapidity of the hit is a `float`, which the narrowing keeps. -/
theorem constrain_eta_single_exact (lib : MathFunctions) (self : ClusterRecoCoG)
    (hit : CalorimeterHit) (weight : ℚ)
    (hexact : self.m_enableEtaBounds = false ∨
      lib.to_float (lib.eta hit.position) = lib.eta hit.position) :
    constrain_eta lib self
      (energy_step lib { totalE := 0, minHitEta := FLT_MAX, maxHitEta := FLT_MIN }
        (hit, weight)) hit.position = hit.position := by
  rcases hexact with hoff | hfloat
  · exact constrain_eta_off lib self _ _ hoff
  · apply constrain_eta_inside
    · simp only [energy_step, hfloat]
      split
      · exact lt_irrefl _
      · assumption
    · simp only [energy_step, hfloat]
      split
      · exact lt_irrefl _
      · assumption

/-- The weighting function of `reconstruct` is handed the raw sum `total_energy`: replacing
its total-energy argument by that sum changes nothing. -/
theorem reconstruct_with_total_energy (lib : MathFunctions) (self : ClusterRecoCoG)
    (pcl : ProtoCluster) :
    ClusterRecoCoG.reconstruct lib self pcl
      = ClusterRecoCoG.reconstruct lib (with_total_energy self (total_energy pcl)) pcl := by
  have hstep : cog_step (with_total_energy self (total_energy pcl)) (total_energy pcl)
      = cog_step self (total_energy pcl) := by
    funext st hw
    simp [cog_step, cog_weight, with_total_energy]
  have hclamp : ∀ (sums : EnergySums) (P : Vector3f),
      constrain_eta lib (with_total_energy self (total_energy pcl)) sums P
        = constrain_eta lib self sums P := by
    intro sums P
    simp [constrain_eta, with_total_energy]
  unfold ClusterRecoCoG.reconstruct
  simp only [energy_sums_totalE, hstep, hclamp]
  rfl


/-! ## The claims on single hits, time, angles, eta bounds and the total-energy argument -/

/-- C22: for every non-empty proto-cluster the time and the time error of the cluster are
those of the first hit in input order, whatever the other hits, the energies and the weights
are, and the energy error is 0. -/
theorem reconstruct_time_of_first_hit (lib : MathFunctions) (self : ClusterRecoCoG)
    (pcl : ProtoCluster) (hit0 : CalorimeterHit) (rest : List CalorimeterHit)
    (hhits : pcl.hits = hit0 :: rest) :
    ( ClusterRecoCoG.reconstruct lib self pcl).cluster.time = hit0.time ∧
    ( ClusterRecoCoG.reconstruct lib self pcl).cluster.timeError = hit0.timeError ∧
    ( ClusterRecoCoG.reconstruct lib self pcl).cluster.energyError = 0 := by
  obtain ⟨_, _, herr, htime, hterr⟩ := reconstruct_cluster_head lib self pcl hit0 rest hhits
  exact ⟨htime, hterr, herr⟩

/-- Witness for C22: two hits with times 3 and 9 and time errors 2 and 4 give time 3 and
time error 2. -/
theorem reconstruct_time_of_first_hit_witness :
    pcl_times.hits
      = { energy := 1, time := 3, timeError := 2, position := { x := 1, y := 0, z := 1 } }
        :: [{ energy := 1, time := 9, timeError := 4, position := { x := 0, y := 1, z := 1 } }] ∧
    ( ClusterRecoCoG.reconstruct stand_in reco_none pcl_times).cluster.time = 3 ∧
    ( ClusterRecoCoG.reconstruct stand_in reco_none pcl_times).cluster.timeError = 2 ∧
    ( ClusterRecoCoG.reconstruct stand_in reco_none pcl_times).cluster.energyError = 0 :=
  ⟨rfl, reconstruct_time_of_first_hit stand_in reco_none pcl_times _ _ rfl⟩

/-- C23: for every non-empty proto-cluster `intrinsicTheta` and `intrinsicPhi` are the polar
and the azimuthal angle of the final position of the cluster, which is the position after
the eta-clamp block: the re-projected position when the clamp fired, the weighted centroid
otherwise. When the total weight is zero that position is not a finite vector, and the two
angles are computed from it all the same; otherwise all are numbers and the returned
cluster holds them. -/
theorem reconstruct_intrinsic_angles (lib : MathFunctions) (self : ClusterRecoCoG)
    (pcl : ProtoCluster) (hne : pcl.hits ≠ []) :
    ( ClusterRecoCoG.reconstruct lib self pcl).members.intrinsicTheta
      = ( ClusterRecoCoG.reconstruct lib self pcl).members.position.map lib.anglePolar ∧
    ( ClusterRecoCoG.reconstruct lib self pcl).members.intrinsicPhi
      = ( ClusterRecoCoG.reconstruct lib self pcl).members.position.map lib.angleAzimuthal ∧
    ( ClusterRecoCoG.reconstruct lib self pcl).members.position
      = (if (position_weights self pcl).sum = 0 then none
         else some (constrain_eta lib self (energy_sums lib pcl)
           (center_of_gravity self pcl))) ∧
    ((position_weights self pcl).sum ≠ 0 →
      ∃ cl : Cluster, ClusterRecoCoG.reconstruct lib self pcl = Reconstructed.done cl ∧
        cl.intrinsicTheta = lib.anglePolar cl.position ∧
        cl.intrinsicPhi = lib.angleAzimuthal cl.position ∧
        cl.position
          = constrain_eta lib self (energy_sums lib pcl) (center_of_gravity self pcl) ∧
        ((self.m_enableEtaBounds = false ∨
            (¬ lib.eta (center_of_gravity self pcl) > (energy_sums lib pcl).maxHitEta ∧
             ¬ lib.eta (center_of_gravity self pcl) < (energy_sums lib pcl).minHitEta)) →
          cl.position = center_of_gravity self pcl) ∧
        (self.m_enableEtaBounds = true →
          lib.eta (center_of_gravity self pcl) > (energy_sums lib pcl).maxHitEta →
          cl.position = lib.sphericalToVector (lib.magnitude (center_of_gravity self pcl))
            (lib.etaToAngle (energy_sums lib pcl).maxHitEta)
            (lib.angleAzimuthal (center_of_gravity self pcl))) ∧
        (self.m_enableEtaBounds = true →
          ¬ lib.eta (center_of_gravity self pcl) > (energy_sums lib pcl).maxHitEta →
          lib.eta (center_of_gravity self pcl) < (energy_sums lib pcl).minHitEta →
          cl.position = lib.sphericalToVector (lib.magnitude (center_of_gravity self pcl))
            (lib.etaToAngle (energy_sums lib pcl).minHitEta)
            (lib.angleAzimuthal (center_of_gravity self pcl)))) := by
  obtain ⟨hposition, htheta, hphi, _⟩ := reconstruct_members lib self pcl hne
  refine ⟨htheta, hphi, ?_, ?_⟩
  · rw [hposition, weighted_centroid]
    split <;> rfl
  · intro htw
    obtain ⟨cl, hrun, hpos, _, htheta', hphi', _⟩ := reconstruct_done lib self pcl hne htw
    refine ⟨cl, hrun, htheta', hphi', hpos, ?_, ?_, ?_⟩
    · intro hclamp
      rw [hpos]
      rcases hclamp with hoff | ⟨hmax, hmin⟩
      · exact constrain_eta_off lib self _ _ hoff
      · exact constrain_eta_inside lib self _ _ hmax hmin
    · intro hon hmax
      rw [hpos]
      exact constrain_eta_overflow lib self _ _ hon hmax
    · intro hon hmax hmin
      rw [hpos]
      exact constrain_eta_underflow lib self _ _ hon hmax hmin

/-- Witness for C23: two hits at `(1, 0, 1)` and `(0, 1, 1)` with the eta clamp enabled.
The clamp re-projects the centroid to `(3/2, 1, 1)`, and the two angles are those of that
position. -/
theorem reconstruct_intrinsic_angles_witness :
    pcl_pair.hits ≠ [] ∧
    ( ClusterRecoCoG.reconstruct stand_in reco_none_clamped pcl_pair).members.position
      = some { x := 3 / 2, y := 1, z := 1 } ∧
    ( ClusterRecoCoG.reconstruct stand_in reco_none_clamped pcl_pair).members.intrinsicTheta
      = some (stand_in.anglePolar { x := 3 / 2, y := 1, z := 1 }) ∧
    ( ClusterRecoCoG.reconstruct stand_in reco_none_clamped pcl_pair).members.intrinsicPhi
      = some (stand_in.angleAzimuthal { x := 3 / 2, y := 1, z := 1 }) := by
  obtain ⟨htheta, hphi, _, _⟩ :=
    reconstruct_intrinsic_angles stand_in reco_none_clamped pcl_pair (by decide)
  have hpos : ( ClusterRecoCoG.reconstruct stand_in reco_none_clamped pcl_pair).members.position
      = some { x := 3 / 2, y := 1, z := 1 } := by with_unfolding_all decide
  rw [hpos] at htheta hphi
  exact ⟨by decide, hpos, htheta, hphi⟩

/-- C26, as stated, fails: with `samplingFraction = 2` and log weighting, two hits of
energies 1 and 3 give the reported energy `4 / 2 = 2`, but the weighting function is handed
the raw sum 4: handing it the reported energy instead gives another position. -/
theorem total_energy_argument_is_not_reported_energy :
    total_energy pcl_unequal = 4 ∧
    ( ClusterRecoCoG.reconstruct stand_in_log reco_log_half pcl_unequal).cluster.energy = 2 ∧
    ClusterRecoCoG.reconstruct stand_in_log reco_log_half pcl_unequal
      ≠ ClusterRecoCoG.reconstruct stand_in_log
          (with_total_energy reco_log_half
            (total_energy pcl_unequal / reco_log_half.m_sampFrac)) pcl_unequal := by
  refine ⟨by with_unfolding_all decide, by with_unfolding_all decide,
    by with_unfolding_all decide⟩

/-- C26, amended: the total-energy argument passed to the weighting function for every hit
is the raw sum `Σ(hit.energy × hit.weight)`, not divided by the sampling fraction: it is the
variable `totalE` of the first loop, and handing the weighting function that sum whatever it
is called with leaves `reconstruct` unchanged. The reported energy of a non-empty
proto-cluster is that sum divided by the sampling fraction. -/
theorem total_energy_argument_is_raw_sum (lib : MathFunctions) (self : ClusterRecoCoG)
    (pcl : ProtoCluster) :
    (energy_sums lib pcl).totalE
      = ((pcl.hits.zip pcl.weights).map (fun hw => hw.1.energy * hw.2)).sum ∧
    ClusterRecoCoG.reconstruct lib self pcl
      = ClusterRecoCoG.reconstruct lib
          (with_total_energy self
            ((pcl.hits.zip pcl.weights).map (fun hw => hw.1.energy * hw.2)).sum) pcl ∧
    (pcl.hits ≠ [] →
      ( ClusterRecoCoG.reconstruct lib self pcl).cluster.energy
        = ((pcl.hits.zip pcl.weights).map (fun hw => hw.1.energy * hw.2)).sum
            / self.m_sampFrac) := by
  refine ⟨energy_sums_totalE lib pcl, reconstruct_with_total_energy lib self pcl, ?_⟩
  intro hne
  obtain ⟨hit0, rest, hhits⟩ := List.exists_cons_of_ne_nil hne
  exact (reconstruct_cluster_head lib self pcl hit0 rest hhits).2.1

/-- C27, the code at a failing input: for two hits in the backward hemisphere, whose
pseudorapidities are both negative, `minHitEta` is the smaller of the two, but `maxHitEta` is
still its start value `numeric_limits<float>::min()`, a positive number above both, and not
the maximum of the hits' pseudorapidities. -/
theorem max_hit_eta_wrong_for_negative_etas :
    pcl_backward_plain.hits ≠ [] ∧
    (∀ hit ∈ pcl_backward_plain.hits, stand_in.eta hit.position < 0) ∧
    (energy_sums stand_in pcl_backward_plain).minHitEta = -1 ∧
    (energy_sums stand_in pcl_backward_plain).maxHitEta = FLT_MIN ∧
    ∀ hit ∈ pcl_backward_plain.hits,
      stand_in.eta hit.position < (energy_sums stand_in pcl_backward_plain).maxHitEta := by
  have hmax : (energy_sums stand_in pcl_backward_plain).maxHitEta = FLT_MIN :=
    foldl_energy_step_maxHitEta_eq stand_in _ _ (by with_unfolding_all decide)
  refine ⟨by decide, by with_unfolding_all decide, by with_unfolding_all decide, hmax, ?_⟩
  rw [hmax]
  with_unfolding_all decide


end Jug.Reco
